import Mathlib

set_option maxHeartbeats 1000000

namespace EventFlow

/-! Shallow embedding of the eventflow core: the `EventBroker` class
(`eventBroker.ts`), its type/config layer (`types.ts`) and the factory
(`index.ts`).  JS function references (listeners, middlewares, custom error
handlers) are modelled by natural-number identities whose runtime behaviour is
supplied by an environment `Env`; JS `Set` objects keep ECMA-262 semantics
(insertion-ordered entry list where `delete` leaves an empty slot, so that live
iteration sees concurrent mutation), and the per-event `Set` objects live in an
explicit heap so an iterator keeps observing the same set object even after the
registry entry for its event name is removed. -/

/-- Event names (JS string keys, modelled by naturals). -/
abbrev Name := Nat

/-- Event payloads. -/
abbrev Data := Nat

/-- Listener reference identity (a JS function reference). -/
abbrev LId := Nat

/-- Middleware reference identity. -/
abbrev MId := Nat

/-- Custom error-handler reference identity. -/
abbrev HId := Nat

/-- Identity of a JS `Set` object in the heap. -/
abbrev SetId := Nat

/-- `ERROR_TYPE` from types.ts: the three error-taxonomy tags. -/
inductive ErrorType
  | listener
  | emit
  | middleware
deriving DecidableEq

/-- Runtime error values: user-thrown errors (identified by a code) plus the
internal `Invalid error type: <tag>` error thrown by `handleError` when the
policy slot for a tag is absent. -/
inductive Err
  | thrown (code : Nat)
  | invalidErrorType (t : ErrorType)
deriving DecidableEq

/-- First-match lookup in an association list keyed by naturals. -/
def alookup {β : Type} : List (Nat × β) → Nat → Option β
  | [], _ => none
  | p :: t, k => if p.1 = k then some p.2 else alookup t k

/-- Update every entry with the given key (used for in-place JS object update). -/
def aupdate {β : Type} (l : List (Nat × β)) (k : Nat) (v : β) : List (Nat × β) :=
  l.map fun p => if p.1 = k then (k, v) else p

/-- Remove all entries with the given key (JS `Map.delete`). -/
def aremove {β : Type} (l : List (Nat × β)) (k : Nat) : List (Nat × β) :=
  l.filter fun p => p.1 ≠ k

/-- A JS `Set` of listener references, per ECMA-262: an insertion-ordered entry
list where deleted entries become empty slots (`none`), so iterators skip them
and values added during iteration are visited. -/
structure JSSet where
  entries : List (Option LId)
deriving DecidableEq

/-- A fresh empty `Set`. -/
def JSSet.empty : JSSet := ⟨[]⟩

/-- `Set.prototype.has`. -/
def JSSet.memb (s : JSSet) (l : LId) : Bool := s.entries.contains (some l)

/-- `Set.prototype.add`: append the value unless it is already present. -/
def JSSet.add (s : JSSet) (l : LId) : JSSet :=
  if s.memb l then s else ⟨s.entries ++ [some l]⟩

/-- `Set.prototype.delete`: blank out the entry holding the value. -/
def JSSet.delete (s : JSSet) (l : LId) : JSSet :=
  ⟨s.entries.map fun e => if e = some l then none else e⟩

/-- The values currently in the set, in iteration order. -/
def JSSet.alive (s : JSSet) : List LId := s.entries.filterMap id

/-- `Set.prototype.size`: number of non-empty entries. -/
def JSSet.size (s : JSSet) : Nat := s.alive.length

/-- Diagnostic / ghost trace entries: `call` is written by the terminal stage
when it invokes a listener, `warn` is the max-listeners console warning,
`errLog` is the console line of the symbolic `continue` strategy, and `note`
entries are written by user-supplied listener/middleware/handler behaviours. -/
inductive TEntry
  | call (l : LId) (d : Data)
  | warn (k : Name)
  | errLog (t : ErrorType) (k : Name)
  | note (n : Nat)
deriving DecidableEq

/-- The broker state that user code (listeners, handlers, middlewares) can
reach through the public API: the listener registry (`Map` from event name to a
`Set` object in the heap), the allocation counter for fresh `Set` objects, the
middleware chain, and the diagnostic trace. -/
structure UState where
  map : List (Name × SetId)
  heap : List (SetId × JSSet)
  nextId : SetId
  middlewares : List MId
  trace : List TEntry
deriving DecidableEq

/-- Full dispatch state: the user-reachable state plus the ghost list of
listener invocations performed by the terminal stage, which user behaviours
cannot touch. -/
structure BState where
  u : UState
  calls : List (LId × Data)
deriving DecidableEq

/-- Read a `Set` object from the heap. -/
def heapGet (h : List (SetId × JSSet)) (sid : SetId) : JSSet :=
  (alookup h sid).getD JSSet.empty

/-- The value stored in one error-policy slot: the symbolic policies from
`POLICY` in types.ts, or a custom handler function. -/
inductive PolicyV
  | CONTINUE
  | STOP
  | handler (h : HId)
deriving DecidableEq

/-- `ErrorPolicy` from types.ts: its three slots are all optional. -/
structure ErrorPolicy where
  onListenerError : Option PolicyV
  onEmitError : Option PolicyV
  onMiddlewareError : Option PolicyV
deriving DecidableEq

/-- `DEFAULT_ERROR_POLICY` from types.ts. -/
def DEFAULT_ERROR_POLICY : ErrorPolicy :=
  ⟨some .CONTINUE, some .CONTINUE, some .CONTINUE⟩

/-- `DEFAULT_MAX_LISTENERS` from types.ts. -/
def DEFAULT_MAX_LISTENERS : Nat := 10

/-- An event object `{ name, data }`. -/
structure Event where
  name : Name
  data : Data
deriving DecidableEq

/-- A dispatch stage (`Next` in types.ts): consumes an event and the current
state; `none` models a non-terminating invocation (fuel exhaustion), otherwise
the new state together with an error the invocation threw, if any. -/
abbrev Layer := Event → BState → Option (BState × Option Err)

/-- Behaviour environment for the opaque JS function references.  A listener
body may mutate the user-reachable state (e.g. by calling `on`/`off`/`clear`/
`use`) and may throw.  A custom error handler may mutate the state (it returns
normally, per the spec contract `(error, event) -> void`).  A middleware, given
its `next` continuation, runs its construction step, which may mutate state and
either throw or return the constructed layer. -/
structure Env where
  lbeh : LId → Data → UState → UState × Option Err
  hbeh : HId → Err → Event → UState → UState
  mbeh : MId → Layer → BState → BState × Except Err Layer

/-- `EventBroker.getErrorHandlingStrategy`: turns a policy slot value into a
strategy `(error, event, type) => boolean` — a custom handler is invoked and
execution continues, `CONTINUE` logs a diagnostic line and continues, `STOP`
re-throws the error.  (The source's final `return () => true` default is
unreachable for well-typed slot values and has no counterpart here.) -/
def getErrorHandlingStrategy (env : Env) (p : PolicyV) :
    Err → Event → ErrorType → UState → UState × Except Err Bool :=
  match p with
  | .handler h => fun e ev _ ust => (env.hbeh h e ev ust, .ok true)
  | .CONTINUE => fun _ ev t ust =>
      (⟨ust.map, ust.heap, ust.nextId, ust.middlewares,
        ust.trace ++ [.errLog t ev.name]⟩, .ok true)
  | .STOP => fun e _ _ ust => (ust, .error e)

/-- The `policy_map` lookup in `handleError`: the policy slot consulted for a
given error-type tag. -/
def slotOf (pol : ErrorPolicy) : ErrorType → Option PolicyV
  | .listener => pol.onListenerError
  | .emit => pol.onEmitError
  | .middleware => pol.onMiddlewareError

/-- `EventBroker.handleError`: look the tag up in the policy map; an absent
slot throws `Invalid error type: <tag>`, otherwise the slot's strategy runs. -/
def handleError (env : Env) (pol : ErrorPolicy) (e : Err) (ev : Event)
    (t : ErrorType) (ust : UState) : UState × Except Err Bool :=
  match slotOf pol t with
  | none => (ust, .error (.invalidErrorType t))
  | some p => getErrorHandlingStrategy env p e ev t ust

/-- The `for (const listener of this.listeners.get(eventName) || [])` loop of
the terminal stage, iterating the `Set` object `sid` live: each step re-reads
the object from the heap, skips blanked entries, invokes the listener with the
(possibly middleware-transformed) event data, and guards the invocation with
`handleError(..., LISTENER)`; a re-thrown error aborts the loop.  `fuel` bounds
the number of iterator steps (the JS loop can diverge if listeners keep adding
entries). -/
def termLoop (env : Env) (pol : ErrorPolicy) (sid : SetId) (ev : Event) :
    Nat → Nat → BState → Option (BState × Option Err)
  | 0, _, _ => none
  | fuel + 1, i, st =>
    match (heapGet st.u.heap sid).entries[i]? with
    | none => some (st, none)
    | some none => termLoop env pol sid ev fuel (i + 1) st
    | some (some l) =>
      match env.lbeh l ev.data
        ⟨st.u.map, st.u.heap, st.u.nextId, st.u.middlewares,
         st.u.trace ++ [.call l ev.data]⟩ with
      | (ust2, none) =>
        termLoop env pol sid ev fuel (i + 1) ⟨ust2, st.calls ++ [(l, ev.data)]⟩
      | (ust2, some e) =>
        match handleError env pol e ⟨ev.name, ev.data⟩ .listener ust2 with
        | (ust3, .ok _) =>
          termLoop env pol sid ev fuel (i + 1) ⟨ust3, st.calls ++ [(l, ev.data)]⟩
        | (ust3, .error e2) => some (⟨ust3, st.calls ++ [(l, ev.data)]⟩, some e2)

/-- The terminal stage of `emit`: look up the set object registered for the
*captured* event name (the `emit` argument, not the possibly transformed
`event.name`) in the current registry and iterate it; no entry means no
listeners. -/
def terminal (env : Env) (pol : ErrorPolicy) (k : Name) (fuel : Nat) : Layer :=
  fun ev st =>
    match alookup st.u.map k with
    | none => some (st, none)
    | some sid => termLoop env pol sid ev fuel 0 st

/-- The `Array.from(this.middlewares).reduceRight` composition in `emit`: fold
the middleware snapshot right-to-left around `next`, so the last-registered
middleware is constructed first and the first-registered ends up outermost.
Each construction step is guarded: a throw is routed to
`handleError(..., MIDDLEWARE)` and, when handled, the faulty layer is skipped
and the accumulated `next` is used directly; an error re-thrown by the handler
aborts the whole composition. -/
def buildCompose (env : Env) (pol : ErrorPolicy) (ev0 : Event) :
    List MId → Layer → BState → BState × Except Err Layer
  | [], next, st => (st, .ok next)
  | m :: rest, next, st =>
    match buildCompose env pol ev0 rest next st with
    | (st1, .error e) => (st1, .error e)
    | (st1, .ok acc) =>
      match env.mbeh m acc st1 with
      | (st2, .ok layer) => (st2, .ok layer)
      | (st2, .error e) =>
        match handleError env pol e ev0 .middleware st2.u with
        | (ust3, .ok handled) =>
          if handled then (⟨ust3, st2.calls⟩, .ok acc)
          else (⟨ust3, st2.calls⟩, .error e)
        | (ust3, .error e2) => (⟨ust3, st2.calls⟩, .error e2)

/-- The outer `catch` of `emit`: any error escaping composition or invocation
is routed to `handleError(..., EMIT)`; if that strategy itself re-throws, the
error leaves `emit`. -/
def emitCatch (env : Env) (pol : ErrorPolicy) (k : Name) (d : Data) (e : Err)
    (st : BState) : Option (BState × Option Err) :=
  match handleError env pol e ⟨k, d⟩ .emit st.u with
  | (ust, .ok _) => some (⟨ust, st.calls⟩, none)
  | (ust, .error e2) => some (⟨ust, st.calls⟩, some e2)

/-- `EventBroker.emit`: build the composed dispatch function over the snapshot
of the middleware chain, invoke it on `{ name, data }`, and guard everything
with the emit-level handler.  The result is `none` when the dispatch runs out
of fuel, otherwise the final state together with the error thrown to the
caller of `emit`, if any. -/
def emit (env : Env) (pol : ErrorPolicy) (k : Name) (d : Data) (fuel : Nat)
    (st : BState) : Option (BState × Option Err) :=
  match buildCompose env pol ⟨k, d⟩ st.u.middlewares (terminal env pol k fuel) st with
  | (st1, .error e) => emitCatch env pol k d e st1
  | (st1, .ok composed) =>
    match composed ⟨k, d⟩ st1 with
    | none => none
    | some (st2, none) => some (st2, none)
    | some (st2, some e) => emitCatch env pol k d e st2

/-- `EventBroker.on`: ensure a set object exists for the event name, warn when
the existing set already holds at least `maxListeners` entries, then add the
listener reference. -/
def «on» (maxL : Nat) (k : Name) (l : LId) (ust : UState) : UState :=
  let ust1 :=
    if (alookup ust.map k).isSome then ust
    else
      { ust with
        map := ust.map ++ [(k, ust.nextId)]
        heap := ust.heap ++ [(ust.nextId, JSSet.empty)]
        nextId := ust.nextId + 1 }
  match alookup ust1.map k with
  | none => ust1
  | some sid =>
    let s := heapGet ust1.heap sid
    let ust2 :=
      if maxL ≤ s.size then { ust1 with trace := ust1.trace ++ [.warn k] }
      else ust1
    { ust2 with heap := aupdate ust2.heap sid (s.add l) }

/-- `EventBroker.off`: delete the listener reference from the event's set and
drop the registry entry entirely when the set becomes empty (the set object
itself stays in the heap, as in JS, where live iterators may still hold it). -/
def off (k : Name) (l : LId) (ust : UState) : UState :=
  match alookup ust.map k with
  | none => ust
  | some sid =>
    let s := (heapGet ust.heap sid).delete l
    let ust1 := { ust with heap := aupdate ust.heap sid s }
    if s.size = 0 then { ust1 with map := aremove ust1.map k } else ust1

/-- `EventBroker.clear`: empty the listener registry; middleware chain and
policy are untouched. -/
def clear (ust : UState) : UState := { ust with map := [] }

/-- `EventBroker.use`: add the middleware reference to the chain (set
semantics: re-adding an existing reference is a no-op). -/
def use (m : MId) (ust : UState) : UState :=
  { ust with
    middlewares :=
      if ust.middlewares.contains m then ust.middlewares
      else ust.middlewares ++ [m] }

/-- The behaviour of the `wrappedListener` closure built by
`EventBroker.once`: run the user listener, then unsubscribe the wrapper itself
— but only when the user listener returned normally; a throw skips the
`off` call. -/
def onceWrapper (fb : Data → UState → UState × Option Err) (k : Name)
    (w : LId) : Data → UState → UState × Option Err :=
  fun d ust =>
    match fb d ust with
    | (ust1, none) => (off k w ust1, none)
    | (ust1, some e) => (ust1, some e)

/-- `EventBroker.once`: registering the one-shot wrapper `w` is just `on`
applied to the wrapper reference (its behaviour must be `onceWrapper` of the
user listener's behaviour). -/
def once (maxL : Nat) (k : Name) (w : LId) (ust : UState) : UState :=
  «on» maxL k w ust

/-- Run `n` successive `emit` calls for the same name and payload, threading
the state; `none` when some emission ran out of fuel.  (Errors thrown out of
an `emit` are caught by this driver, which keeps emitting.) -/
def emitN (env : Env) (pol : ErrorPolicy) (k : Name) (d : Data) (fuel : Nat) :
    Nat → BState → Option BState
  | 0, st => some st
  | n + 1, st =>
    match emit env pol k d fuel st with
    | some (st', _) => emitN env pol k d fuel n st'
    | none => none

/-- A heap of JS arrays of middleware references, for the constructor's
handling of `options.middlewares` (which it aliases and mutates in place). -/
structure ArrHeap where
  arrays : List (Nat × List MId)
  next : Nat
deriving DecidableEq

/-- `EventBrokerOptions` from types.ts; `middlewares` holds a *reference* to a
caller-owned array. -/
structure EventBrokerOptions where
  logger : Bool
  maxListeners : Option Nat
  errorPolicy : Option ErrorPolicy
  middlewares : Option Nat
deriving DecidableEq

/-- The options value for `new EventBroker()` with no argument. -/
def defaultOptions : EventBrokerOptions := ⟨false, none, none, none⟩

/-- The immutable configuration a constructed broker carries. -/
structure Broker where
  middlewares : List MId
  errorPolicy : ErrorPolicy
  maxListeners : Nat
deriving DecidableEq

/-- `new Set(list)`: deduplicate preserving first occurrence. -/
def setFromList (l : List MId) : List MId :=
  l.foldl (fun acc m => if acc.contains m then acc else acc ++ [m]) []

/-- The `EventBroker` constructor: alias `options.middlewares` (or allocate a
fresh empty array), push the logger middleware onto that very array when
`options.logger` is truthy, seed the middleware set from it, and take the
error policy and max-listeners settings with `||` defaulting (so
`maxListeners: 0` falls back to the default). -/
def constructBroker (loggerMw : MId) (opts : EventBrokerOptions) (h : ArrHeap) :
    Broker × ArrHeap :=
  let step1 : Nat × ArrHeap :=
    match opts.middlewares with
    | some aid => (aid, h)
    | none => (h.next, ⟨h.arrays ++ [(h.next, [])], h.next + 1⟩)
  let aid := step1.1
  let h1 := step1.2
  let h2 :=
    if opts.logger then
      ⟨aupdate h1.arrays aid ((alookup h1.arrays aid).getD [] ++ [loggerMw]),
       h1.next⟩
    else h1
  let mws := (alookup h2.arrays aid).getD []
  (⟨setFromList mws,
    opts.errorPolicy.getD DEFAULT_ERROR_POLICY,
    match opts.maxListeners with
    | some n => if n = 0 then DEFAULT_MAX_LISTENERS else n
    | none => DEFAULT_MAX_LISTENERS⟩,
   h2)

/-- `createEventBroker` from index.ts: construct a broker from the (optional)
options. -/
def createEventBroker (loggerMw : MId) (opts : Option EventBrokerOptions)
    (h : ArrHeap) : Broker × ArrHeap :=
  constructBroker loggerMw (opts.getD defaultOptions) h

/-- A policy slot that ultimately resolves to "continue": the symbolic
`CONTINUE` or a custom handler. -/
def resolvesContinue (p : Option PolicyV) : Prop :=
  p = some .CONTINUE ∨ ∃ h, p = some (.handler h)

/-- The registry well-formedness invariant: heap names are below the
allocation counter, every registry entry points at an allocated set object,
no two registry entries share a set object, and every registered set is
non-empty. -/
def Wf (ust : UState) : Prop :=
  (∀ p ∈ ust.heap, p.1 < ust.nextId) ∧
  (∀ p ∈ ust.map, (alookup ust.heap p.2).isSome = true) ∧
  (ust.map.map Prod.snd).Nodup ∧
  (∀ p ∈ ust.map, 0 < (heapGet ust.heap p.2).size)

instance (ust : UState) : Decidable (Wf ust) := by
  unfold Wf
  infer_instance

/-- The error component of an `emit` result (`none` when `emit` returned
normally or ran out of fuel). -/
def resultErr : Option (BState × Option Err) → Option Err
  | some (_, some e) => some e
  | _ => none

/-- The ghost call list of an `emit` result. -/
def resultCalls : Option (BState × Option Err) → Option (List (LId × Data))
  | some (st, _) => some st.calls
  | none => none

/-- The diagnostic trace of an `emit` result. -/
def resultTrace : Option (BState × Option Err) → Option (List TEntry)
  | some (st, _) => some st.u.trace
  | none => none

/-- The ghost call list of an `emitN` result. -/
def stateCalls : Option BState → Option (List (LId × Data))
  | some st => some st.calls
  | none => none

/-- The diagnostic trace of an `emitN` result. -/
def stateTrace : Option BState → Option (List TEntry)
  | some st => some st.u.trace
  | none => none

/-- The empty user state of a freshly constructed broker with middleware
chain `mws`. -/
def initU (mws : List MId) : UState := ⟨[], [], 0, mws, []⟩

/-- The initial dispatch state over a user state. -/
def initB (ust : UState) : BState := ⟨ust, []⟩

/-- A layer that maps well-formed states to well-formed states. -/
def LayerPreserves (L : Layer) : Prop :=
  ∀ ev st st' r, Wf st.u → L ev st = some (st', r) → Wf st'.u

/-- Behaviours realisable through the public broker API keep the registry
invariant; this predicate captures that for a whole environment. -/
def EnvPreserves (env : Env) : Prop :=
  (∀ l d ust, Wf ust → Wf (env.lbeh l d ust).1) ∧
  (∀ h e ev ust, Wf ust → Wf (env.hbeh h e ev ust)) ∧
  (∀ m next st, LayerPreserves next → Wf st.u →
    Wf (env.mbeh m next st).1.u ∧
    ∀ L, (env.mbeh m next st).2 = .ok L → LayerPreserves L)

/-- Append a `note` diagnostic (used by concrete middleware behaviours). -/
def pushNoteB (n : Nat) (st : BState) : BState :=
  ⟨{ st.u with trace := st.u.trace ++ [.note n] }, st.calls⟩

/-- A typical middleware layer: note `a`, forward to `next`, and note `b`
after `next` returns normally (a throw from `next` propagates). -/
def noteWrap (a b : Nat) (next : Layer) : Layer := fun ev st =>
  match next ev (pushNoteB a st) with
  | some (st2, none) => some (pushNoteB b st2, none)
  | other => other

/-- Scenario for C1's counterexample: listener 0 always throws error 7. -/
def envC1 : Env where
  lbeh := fun l _ ust => if l = 0 then (ust, some (.thrown 7)) else (ust, none)
  hbeh := fun _ _ _ ust => ust
  mbeh := fun _ next st => (st, .ok next)

/-- C1 counterexample policy: `stop` at the listener slot, `continue`
elsewhere. -/
def polC1 : ErrorPolicy := ⟨some .STOP, some .CONTINUE, some .CONTINUE⟩

/-- C1 counterexample state: listener 0 registered for event 5. -/
def stC1 : BState := initB («on» 10 5 0 (initU []))

/-- Scenario for C4's counterexample: middleware 0 constructs successfully,
but the constructed layer throws error 13 when invoked. -/
def envC4 : Env where
  lbeh := fun _ _ ust => (ust, none)
  hbeh := fun _ _ _ ust => ust
  mbeh := fun m next st =>
    if m = 0 then (st, .ok fun _ st1 => some (st1, some (.thrown 13)))
    else (st, .ok next)

/-- C4 counterexample policy: `stop` at the middleware slot, `continue`
elsewhere, so the slot that handles the invocation error is observable. -/
def polC4 : ErrorPolicy := ⟨some .CONTINUE, some .CONTINUE, some .STOP⟩

/-- C4 counterexample state: middleware 0 in the chain, listener 7 on
event 5. -/
def stC4 : BState := initB (use 0 («on» 10 5 7 (initU [])))

/-- Scenario for C5's counterexample: listener 2, when invoked during an
emission of event 5, registers listener 3 for event 5 via the public `on`. -/
def envC5 : Env where
  lbeh := fun l _ ust =>
    if l = 2 then («on» 10 5 3 ust, none) else (ust, none)
  hbeh := fun _ _ _ ust => ust
  mbeh := fun _ next st => (st, .ok next)

/-- C5 counterexample state: only listener 2 registered for event 5. -/
def stC5 : BState := initB («on» 10 5 2 (initU []))

/-- Scenario for C6's counterexample: listener reference 4 is the `once`
wrapper of a user listener that writes `note 99` and then throws error 3. -/
def envC6 : Env where
  lbeh := fun l d ust =>
    if l = 4 then
      onceWrapper
        (fun _ u => ({ u with trace := u.trace ++ [.note 99] }, some (.thrown 3)))
        5 4 d ust
    else (ust, none)
  hbeh := fun _ _ _ ust => ust
  mbeh := fun _ next st => (st, .ok next)

/-- C6 counterexample state: the one-shot wrapper 4 registered for event 5
via `once`. -/
def stC6 : BState := initB (once 10 5 4 (initU []))

/-- Scenario for C7: middleware 0 notes 10 before / 11 after, middleware 1
notes 20 before / 21 after; listener 2 is a plain no-op terminal listener. -/
def envC7 : Env where
  lbeh := fun _ _ ust => (ust, none)
  hbeh := fun _ _ _ ust => ust
  mbeh := fun m next st =>
    if m = 0 then (st, .ok (noteWrap 10 11 next))
    else if m = 1 then (st, .ok (noteWrap 20 21 next))
    else (st, .ok next)

/-- C7 state: listener 2 on event `k`; middleware 0 registered via `use`
first, then middleware 1. -/
def stC7 (k : Name) : BState := initB (use 1 (use 0 («on» 10 k 2 (initU []))))

/-- An inert behaviour environment (used to instantiate hypotheses of the
general theorems at concrete inputs). -/
def envId : Env where
  lbeh := fun _ _ ust => (ust, none)
  hbeh := fun _ _ _ ust => ust
  mbeh := fun _ next st => (st, .ok next)

/-- Environment whose listener 0 always throws error 7 and whose listener 1
is inert (used for witnesses of the scenario theorems). -/
def envW : Env where
  lbeh := fun l _ ust => if l = 0 then (ust, some (.thrown 7)) else (ust, none)
  hbeh := fun _ _ _ ust => ust
  mbeh := fun _ next st => (st, .ok next)

/-- Witness state: listeners 0 and 1 registered for event 5. -/
def stW : BState := initB («on» 10 5 1 («on» 10 5 0 (initU [])))

/-- Environment where listener 4 is the `once` wrapper of an inert user
listener (for the witness of the amended C6 theorem). -/
def envOnceW : Env where
  lbeh := fun l d ust =>
    if l = 4 then onceWrapper (fun _ u => (u, none)) 5 4 d ust else (ust, none)
  hbeh := fun _ _ _ ust => ust
  mbeh := fun _ next st => (st, .ok next)

/-- Stop-stop policy (listener and emit slots escalate). -/
def polW2 : ErrorPolicy := ⟨some .STOP, some .STOP, some .CONTINUE⟩

/-- Policy with the listener and emit slots omitted. -/
def polW9 : ErrorPolicy := ⟨none, none, some .CONTINUE⟩

/-- The state after the aborted emission of the stop-stop witness scenario. -/
def stWmid : BState :=
  ⟨⟨[(5, 0)], [(0, ⟨[some 0, some 1]⟩)], 1, [], [.call 0 42]⟩, [(0, 42)]⟩

/-- The state after the aborted emission of the omitted-slot witness
scenario. -/
def stWmid9 : BState :=
  ⟨⟨[(5, 0)], [(0, ⟨[some 0, some 1]⟩)], 1, [], [.call 0 42]⟩, [(0, 42)]⟩

/-- Environment whose middleware 0 throws error 21 during construction. -/
def envW3 : Env where
  lbeh := fun _ _ ust => (ust, none)
  hbeh := fun _ _ _ ust => ust
  mbeh := fun m next st =>
    if m = 0 then (st, .error (.thrown 21)) else (st, .ok next)

/-- Policy escalating middleware and emit errors. -/
def polW3 : ErrorPolicy := ⟨some .CONTINUE, some .STOP, some .STOP⟩

/-- State with only middleware 0 registered. -/
def stU3 : BState := initB (use 0 (initU []))

/-- Concrete options for the C10 witness: logger on, caller-supplied
middlewares array 0. -/
def optsW : EventBrokerOptions := ⟨true, none, none, some 0⟩

/-- Concrete array heap for the C10 witness: array 0 holds middleware 4. -/
def arrW : ArrHeap := ⟨[(0, [4])], 1⟩

/-! Association-list lemmas. -/

theorem alookup_mem {β : Type} :
    ∀ {l : List (Nat × β)} {k : Nat} {v : β}, alookup l k = some v → (k, v) ∈ l := by
  intro l
  induction l with
  | nil => intro k v h; simp [alookup] at h
  | cons p t ih =>
    intro k v h
    by_cases hp : p.1 = k
    · rw [alookup, if_pos hp] at h
      injection h with h
      subst hp
      subst h
      exact List.mem_cons_self _ _
    · rw [alookup, if_neg hp] at h
      exact List.mem_cons_of_mem _ (ih h)

theorem alookup_append_left {β : Type} {l1 l2 : List (Nat × β)} {j : Nat} {v : β}
    (h : alookup l1 j = some v) : alookup (l1 ++ l2) j = some v := by
  induction l1 with
  | nil => simp [alookup] at h
  | cons p t ih =>
    by_cases hp : p.1 = j
    · rw [alookup, if_pos hp] at h
      rw [List.cons_append, alookup, if_pos hp]
      exact h
    · rw [alookup, if_neg hp] at h
      rw [List.cons_append, alookup, if_neg hp]
      exact ih h

theorem alookup_append_right {β : Type} {l1 : List (Nat × β)} {j : Nat}
    (l2 : List (Nat × β)) (h : alookup l1 j = none) :
    alookup (l1 ++ l2) j = alookup l2 j := by
  induction l1 with
  | nil => simp
  | cons p t ih =>
    by_cases hp : p.1 = j
    · rw [alookup, if_pos hp] at h; simp at h
    · rw [alookup, if_neg hp] at h
      rw [List.cons_append, alookup, if_neg hp]
      exact ih h

theorem alookup_aupdate_ne {β : Type} (l : List (Nat × β)) {j k : Nat} (v : β)
    (h : j ≠ k) : alookup (aupdate l k v) j = alookup l j := by
  induction l with
  | nil => rfl
  | cons p t ih =>
    by_cases hp : p.1 = k
    · simp only [aupdate, List.map_cons, if_pos hp]
      rw [alookup, if_neg (fun hh => h hh.symm), alookup, if_neg (hp ▸ fun hh => h hh.symm)]
      exact ih
    · simp only [aupdate, List.map_cons, if_neg hp]
      by_cases hj : p.1 = j
      · rw [alookup, if_pos hj, alookup, if_pos hj]
      · rw [alookup, if_neg hj, alookup, if_neg hj]
        exact ih

theorem alookup_aupdate_self {β : Type} {l : List (Nat × β)} {k : Nat} (v : β)
    (h : (alookup l k).isSome = true) : alookup (aupdate l k v) k = some v := by
  induction l with
  | nil => simp [alookup] at h
  | cons p t ih =>
    by_cases hp : p.1 = k
    · simp only [aupdate, List.map_cons, if_pos hp]
      rw [alookup, if_pos rfl]
    · simp only [aupdate, List.map_cons, if_neg hp]
      rw [alookup, if_neg hp]
      rw [alookup, if_neg hp] at h
      exact ih h

theorem alookup_aupdate_none {β : Type} {l : List (Nat × β)} {k : Nat} (v : β)
    (h : alookup l k = none) : alookup (aupdate l k v) k = none := by
  induction l with
  | nil => rfl
  | cons p t ih =>
    by_cases hp : p.1 = k
    · rw [alookup, if_pos hp] at h; simp at h
    · rw [alookup, if_neg hp] at h
      simp only [aupdate, List.map_cons, if_neg hp]
      rw [alookup, if_neg hp]
      exact ih h

theorem alookup_aupdate_isSome {β : Type} (l : List (Nat × β)) (k : Nat) (v : β)
    (j : Nat) : (alookup (aupdate l k v) j).isSome = (alookup l j).isSome := by
  by_cases hj : j = k
  · subst hj
    cases h : alookup l j with
    | none => rw [alookup_aupdate_none v h]
    | some w =>
      rw [alookup_aupdate_self v (by rw [h]; rfl)]
      rfl
  · rw [alookup_aupdate_ne l v hj]

theorem aupdate_map_fst {β : Type} (l : List (Nat × β)) (k : Nat) (v : β) :
    (aupdate l k v).map Prod.fst = l.map Prod.fst := by
  induction l with
  | nil => rfl
  | cons p t ih =>
    simp only [aupdate, List.map_cons] at ih ⊢
    by_cases hp : p.1 = k
    · rw [if_pos hp, ih, hp]
    · rw [if_neg hp, ih]

theorem alookup_none_of_lt {β : Type} {l : List (Nat × β)} {n : Nat}
    (h : ∀ p ∈ l, p.1 < n) : alookup l n = none := by
  induction l with
  | nil => rfl
  | cons p t ih =>
    have hp := h p (List.mem_cons_self _ _)
    rw [alookup, if_neg (Nat.ne_of_lt hp), ih]
    intro q hq
    exact h q (List.mem_cons_of_mem _ hq)

theorem alookup_isSome_mem {β : Type} {l : List (Nat × β)} {j : Nat}
    (h : (alookup l j).isSome = true) : j ∈ l.map Prod.fst := by
  induction l with
  | nil => simp [alookup] at h
  | cons p t ih =>
    by_cases hp : p.1 = j
    · rw [List.map_cons, hp]
      exact List.mem_cons_self _ _
    · rw [alookup, if_neg hp] at h
      exact List.mem_cons_of_mem _ (ih h)

theorem mem_aremove {β : Type} {l : List (Nat × β)} {k : Nat} {p : Nat × β} :
    p ∈ aremove l k ↔ p ∈ l ∧ p.1 ≠ k := by
  simp [aremove, List.mem_filter]

/-! `handleError` lemmas. -/

theorem handleError_none (env : Env) (pol : ErrorPolicy) (e : Err) (ev : Event)
    (t : ErrorType) (ust : UState) (h : slotOf pol t = none) :
    handleError env pol e ev t ust = (ust, .error (.invalidErrorType t)) := by
  rw [handleError, h]

theorem handleError_CONTINUE (env : Env) (pol : ErrorPolicy) (e : Err)
    (ev : Event) (t : ErrorType) (ust : UState)
    (h : slotOf pol t = some .CONTINUE) :
    handleError env pol e ev t ust =
      (⟨ust.map, ust.heap, ust.nextId, ust.middlewares,
        ust.trace ++ [.errLog t ev.name]⟩, .ok true) := by
  rw [handleError, h]
  rfl

theorem handleError_STOP (env : Env) (pol : ErrorPolicy) (e : Err) (ev : Event)
    (t : ErrorType) (ust : UState) (h : slotOf pol t = some .STOP) :
    handleError env pol e ev t ust = (ust, .error e) := by
  rw [handleError, h]
  rfl

theorem handleError_handler (env : Env) (pol : ErrorPolicy) (e : Err)
    (ev : Event) (t : ErrorType) (ust : UState) (hid : HId)
    (h : slotOf pol t = some (.handler hid)) :
    handleError env pol e ev t ust = (env.hbeh hid e ev ust, .ok true) := by
  rw [handleError, h]
  rfl

theorem handleError_resolved (env : Env) (pol : ErrorPolicy) (e : Err)
    (ev : Event) (t : ErrorType) (ust : UState)
    (h : resolvesContinue (slotOf pol t)) :
    ∃ ust', handleError env pol e ev t ust = (ust', .ok true) := by
  rcases h with h | ⟨hid, h⟩
  · exact ⟨_, handleError_CONTINUE env pol e ev t ust h⟩
  · exact ⟨_, handleError_handler env pol e ev t ust hid h⟩

/-! `emit` unfolding lemmas. -/

theorem emit_eq_build_error (env : Env) (pol : ErrorPolicy) (k : Name)
    (d : Data) (fuel : Nat) (st st1 : BState) (e : Err)
    (hb : buildCompose env pol ⟨k, d⟩ st.u.middlewares (terminal env pol k fuel) st
          = (st1, .error e)) :
    emit env pol k d fuel st = emitCatch env pol k d e st1 := by
  rw [emit, hb]

theorem emit_eq_composed_throw (env : Env) (pol : ErrorPolicy) (k : Name)
    (d : Data) (fuel : Nat) (st st1 st2 : BState) (e : Err) (c : Layer)
    (hb : buildCompose env pol ⟨k, d⟩ st.u.middlewares (terminal env pol k fuel) st
          = (st1, .ok c))
    (hc : c ⟨k, d⟩ st1 = some (st2, some e)) :
    emit env pol k d fuel st = emitCatch env pol k d e st2 := by
  simp only [emit, hb, hc]

theorem emit_eq_composed_ok (env : Env) (pol : ErrorPolicy) (k : Name)
    (d : Data) (fuel : Nat) (st st1 st2 : BState) (c : Layer)
    (hb : buildCompose env pol ⟨k, d⟩ st.u.middlewares (terminal env pol k fuel) st
          = (st1, .ok c))
    (hc : c ⟨k, d⟩ st1 = some (st2, none)) :
    emit env pol k d fuel st = some (st2, none) := by
  simp only [emit, hb, hc]

theorem emitCatch_resolved (env : Env) (pol : ErrorPolicy) (k : Name) (d : Data)
    (e : Err) (st : BState) (h : resolvesContinue pol.onEmitError) :
    ∃ ust', emitCatch env pol k d e st = some (⟨ust', st.calls⟩, none) := by
  obtain ⟨ust', hh⟩ := handleError_resolved env pol e ⟨k, d⟩ .emit st.u h
  exact ⟨ust', by rw [emitCatch, hh]⟩

theorem emitCatch_STOP (env : Env) (pol : ErrorPolicy) (k : Name) (d : Data)
    (e : Err) (st : BState) (h : pol.onEmitError = some .STOP) :
    emitCatch env pol k d e st = some (st, some e) := by
  rw [emitCatch, handleError_STOP env pol e ⟨k, d⟩ .emit st.u h]

theorem emitCatch_none_slot (env : Env) (pol : ErrorPolicy) (k : Name)
    (d : Data) (e : Err) (st : BState) (h : pol.onEmitError = none) :
    emitCatch env pol k d e st = some (st, some (.invalidErrorType .emit)) := by
  rw [emitCatch, handleError_none env pol e ⟨k, d⟩ .emit st.u h]

/-! `termLoop` step lemmas. -/

theorem termLoop_done (env : Env) (pol : ErrorPolicy) (sid : SetId) (ev : Event)
    (fuel i : Nat) (st : BState)
    (h : (heapGet st.u.heap sid).entries[i]? = none) :
    termLoop env pol sid ev (fuel + 1) i st = some (st, none) := by
  rw [termLoop, h]

theorem termLoop_skip (env : Env) (pol : ErrorPolicy) (sid : SetId) (ev : Event)
    (fuel i : Nat) (st : BState)
    (h : (heapGet st.u.heap sid).entries[i]? = some none) :
    termLoop env pol sid ev (fuel + 1) i st = termLoop env pol sid ev fuel (i + 1) st := by
  rw [termLoop, h]

theorem termLoop_call_ok (env : Env) (pol : ErrorPolicy) (sid : SetId)
    (ev : Event) (fuel i : Nat) (st : BState) (l : LId) (ust2 : UState)
    (h : (heapGet st.u.heap sid).entries[i]? = some (some l))
    (hl : env.lbeh l ev.data
            ⟨st.u.map, st.u.heap, st.u.nextId, st.u.middlewares,
             st.u.trace ++ [.call l ev.data]⟩ = (ust2, none)) :
    termLoop env pol sid ev (fuel + 1) i st =
      termLoop env pol sid ev fuel (i + 1) ⟨ust2, st.calls ++ [(l, ev.data)]⟩ := by
  simp only [termLoop, h, hl]

theorem termLoop_call_handled (env : Env) (pol : ErrorPolicy) (sid : SetId)
    (ev : Event) (fuel i : Nat) (st : BState) (l : LId) (ust2 ust3 : UState)
    (e : Err) (b : Bool)
    (h : (heapGet st.u.heap sid).entries[i]? = some (some l))
    (hl : env.lbeh l ev.data
            ⟨st.u.map, st.u.heap, st.u.nextId, st.u.middlewares,
             st.u.trace ++ [.call l ev.data]⟩ = (ust2, some e))
    (hh : handleError env pol e ⟨ev.name, ev.data⟩ .listener ust2 = (ust3, .ok b)) :
    termLoop env pol sid ev (fuel + 1) i st =
      termLoop env pol sid ev fuel (i + 1) ⟨ust3, st.calls ++ [(l, ev.data)]⟩ := by
  simp only [termLoop, h, hl, hh]

theorem termLoop_call_abort (env : Env) (pol : ErrorPolicy) (sid : SetId)
    (ev : Event) (fuel i : Nat) (st : BState) (l : LId) (ust2 ust3 : UState)
    (e e2 : Err)
    (h : (heapGet st.u.heap sid).entries[i]? = some (some l))
    (hl : env.lbeh l ev.data
            ⟨st.u.map, st.u.heap, st.u.nextId, st.u.middlewares,
             st.u.trace ++ [.call l ev.data]⟩ = (ust2, some e))
    (hh : handleError env pol e ⟨ev.name, ev.data⟩ .listener ust2 = (ust3, .error e2)) :
    termLoop env pol sid ev (fuel + 1) i st =
      some (⟨ust3, st.calls ++ [(l, ev.data)]⟩, some e2) := by
  simp only [termLoop, h, hl, hh]

/-! `buildCompose` lemmas. -/

theorem buildCompose_nil (env : Env) (pol : ErrorPolicy) (ev0 : Event)
    (next : Layer) (st : BState) :
    buildCompose env pol ev0 [] next st = (st, .ok next) := rfl

theorem terminal_lookup_none (env : Env) (pol : ErrorPolicy) (k : Name)
    (fuel : Nat) (ev : Event) (st : BState) (h : alookup st.u.map k = none) :
    terminal env pol k fuel ev st = some (st, none) := by
  rw [terminal, h]

theorem terminal_lookup_some (env : Env) (pol : ErrorPolicy) (k : Name)
    (fuel : Nat) (ev : Event) (st : BState) (sid : SetId)
    (h : alookup st.u.map k = some sid) :
    terminal env pol k fuel ev st = termLoop env pol sid ev fuel 0 st := by
  rw [terminal, h]

theorem emit_eq_composed_fuel (env : Env) (pol : ErrorPolicy) (k : Name)
    (d : Data) (fuel : Nat) (st st1 : BState) (c : Layer)
    (hb : buildCompose env pol ⟨k, d⟩ st.u.middlewares (terminal env pol k fuel) st
          = (st1, .ok c))
    (hc : c ⟨k, d⟩ st1 = none) :
    emit env pol k d fuel st = none := by
  simp only [emit, hb, hc]

/-! Claim theorems. -/

/-- C1, counterexample: in a broker whose listener slot is the symbolic
`stop` (and whose emit slot is `continue`), listener 0's behaviour throws
error 7, the terminal stage invokes it (see the ghost call list), so the error
reaches the stop-configured listener slot — yet `emit` returns normally
instead of propagating the error to its caller. -/
theorem C1_counterexample :
    polC1.onListenerError = some PolicyV.STOP ∧
    (envC1.lbeh 0 42 stC1.u).2 = some (Err.thrown 7) ∧
    resultCalls (emit envC1 polC1 5 42 10 stC1) = some [(0, 42)] ∧
    resultErr (emit envC1 polC1 5 42 10 stC1) = none := by
  decide

/-- C1 (amended): `emit` never throws to its caller when every policy slot
resolves to continue (symbolic or custom handler); and with `onEmitError:
"stop"`, an error that reaches the emit-level guard — escaping either the
composed invocation or the composition step itself — propagates out of `emit`
unchanged.  (A `stop` at an inner slot only aborts the emission and re-throws
to the emit guard, whose own policy decides whether the caller sees it.) -/
theorem C1_emit_throw_behaviour :
    (∀ (env : Env) (pol : ErrorPolicy) (k : Name) (d : Data) (fuel : Nat)
      (st st' : BState) (e : Err),
      resolvesContinue pol.onListenerError →
      resolvesContinue pol.onEmitError →
      resolvesContinue pol.onMiddlewareError →
      emit env pol k d fuel st ≠ some (st', some e)) ∧
    (∀ (env : Env) (pol : ErrorPolicy) (k : Name) (d : Data) (fuel : Nat)
      (st st1 st2 : BState) (e : Err) (c : Layer),
      pol.onEmitError = some .STOP →
      buildCompose env pol ⟨k, d⟩ st.u.middlewares (terminal env pol k fuel) st
        = (st1, .ok c) →
      c ⟨k, d⟩ st1 = some (st2, some e) →
      emit env pol k d fuel st = some (st2, some e)) ∧
    (∀ (env : Env) (pol : ErrorPolicy) (k : Name) (d : Data) (fuel : Nat)
      (st st1 : BState) (e : Err),
      pol.onEmitError = some .STOP →
      buildCompose env pol ⟨k, d⟩ st.u.middlewares (terminal env pol k fuel) st
        = (st1, .error e) →
      emit env pol k d fuel st = some (st1, some e)) := by
  refine ⟨?_, ?_, ?_⟩
  · intro env pol k d fuel st st' e _ hEmit _
    cases hb : buildCompose env pol ⟨k, d⟩ st.u.middlewares (terminal env pol k fuel) st with
    | mk st1 r =>
      cases r with
      | error e1 =>
        rw [emit_eq_build_error env pol k d fuel st st1 e1 hb]
        obtain ⟨ust', hcat⟩ := emitCatch_resolved env pol k d e1 st1 hEmit
        rw [hcat]
        simp
      | ok c =>
        cases hc : c ⟨k, d⟩ st1 with
        | none =>
          rw [emit_eq_composed_fuel env pol k d fuel st st1 c hb hc]
          simp
        | some p =>
          cases p with
          | mk st2 r2 =>
            cases r2 with
            | none =>
              rw [emit_eq_composed_ok env pol k d fuel st st1 st2 c hb hc]
              simp
            | some e2 =>
              rw [emit_eq_composed_throw env pol k d fuel st st1 st2 e2 c hb hc]
              obtain ⟨ust', hcat⟩ := emitCatch_resolved env pol k d e2 st2 hEmit
              rw [hcat]
              simp
  · intro env pol k d fuel st st1 st2 e c hstop hb hc
    rw [emit_eq_composed_throw env pol k d fuel st st1 st2 e c hb hc,
      emitCatch_STOP env pol k d e st2 hstop]
  · intro env pol k d fuel st st1 e hstop hb
    rw [emit_eq_build_error env pol k d fuel st st1 e hb,
      emitCatch_STOP env pol k d e st1 hstop]

/-- Witness for C1: a continue-everywhere broker does not throw at a concrete
input; a stop-configured emit slot propagates a listener error escaping the
composed invocation, and a middleware-construction error escaping the
composition. -/
theorem C1_emit_throw_behaviour_witness :
    (emit envW DEFAULT_ERROR_POLICY 5 42 10 stW ≠ some (stW, some (.thrown 7))) ∧
    emit envW polW2 5 42 10 stW = some (stWmid, some (.thrown 7)) ∧
    emit envW3 polW3 5 42 10 stU3 = some (stU3, some (.thrown 21)) := by
  refine ⟨?_, ?_, ?_⟩
  · exact C1_emit_throw_behaviour.1 envW DEFAULT_ERROR_POLICY 5 42 10 stW stW
      (.thrown 7) (Or.inl rfl) (Or.inl rfl) (Or.inl rfl)
  · exact C1_emit_throw_behaviour.2.1 envW polW2 5 42 10 stW stW stWmid
      (.thrown 7) (terminal envW polW2 5 10) rfl rfl rfl
  · exact C1_emit_throw_behaviour.2.2 envW3 polW3 5 42 10 stU3 stU3
      (.thrown 21) rfl rfl

/-- C2: with `onListenerError: "stop"` and `onEmitError: "stop"` (and no
middlewares), when the first listener registered for `k` throws `e`, `emit`
itself throws `e` to its caller, and the listener registered after the
throwing one is never invoked: the ghost call list gains exactly the one
entry for the throwing listener. -/
theorem C2_stop_escalation (env : Env) (pol : ErrorPolicy) (k : Name)
    (d : Data) (sid : SetId) (l1 l2 : LId) (e : Err) (fuel : Nat) (st : BState)
    (hpolL : pol.onListenerError = some .STOP)
    (hpolE : pol.onEmitError = some .STOP)
    (hmw : st.u.middlewares = [])
    (hmap : alookup st.u.map k = some sid)
    (hset : (heapGet st.u.heap sid).entries = [some l1, some l2])
    (hl1 : ∀ ust, env.lbeh l1 d ust = (ust, some e)) :
    emit env pol k d (fuel + 1) st =
      some (⟨⟨st.u.map, st.u.heap, st.u.nextId, st.u.middlewares,
              st.u.trace ++ [.call l1 d]⟩, st.calls ++ [(l1, d)]⟩, some e) := by
  have hb : buildCompose env pol ⟨k, d⟩ st.u.middlewares
      (terminal env pol k (fuel + 1)) st
      = (st, .ok (terminal env pol k (fuel + 1))) := by
    rw [hmw]
    exact buildCompose_nil env pol ⟨k, d⟩ _ st
  have hidx : (heapGet st.u.heap sid).entries[0]? = some (some l1) := by
    rw [hset]
    rfl
  have hloop : termLoop env pol sid ⟨k, d⟩ (fuel + 1) 0 st =
      some (⟨⟨st.u.map, st.u.heap, st.u.nextId, st.u.middlewares,
              st.u.trace ++ [.call l1 d]⟩, st.calls ++ [(l1, d)]⟩, some e) :=
    termLoop_call_abort env pol sid ⟨k, d⟩ fuel 0 st l1 _ _ e e hidx (hl1 _)
      (handleError_STOP env pol e ⟨k, d⟩ .listener _ hpolL)
  have hterm : terminal env pol k (fuel + 1) ⟨k, d⟩ st =
      some (⟨⟨st.u.map, st.u.heap, st.u.nextId, st.u.middlewares,
              st.u.trace ++ [.call l1 d]⟩, st.calls ++ [(l1, d)]⟩, some e) :=
    (terminal_lookup_some env pol k (fuel + 1) ⟨k, d⟩ st sid hmap).trans hloop
  rw [emit_eq_composed_throw env pol k d (fuel + 1) st st _ e _ hb hterm,
    emitCatch_STOP env pol k d e _ hpolE]

/-- Witness for C2: listeners 0 (throws error 7) and 1 registered for event 5
under the stop-stop policy — `emit` throws error 7 and only listener 0 is
invoked. -/
theorem C2_stop_escalation_witness :
    emit envW polW2 5 42 10 stW = some (stWmid, some (.thrown 7)) := by
  exact C2_stop_escalation envW polW2 5 42 0 0 1 (.thrown 7) 9 stW
    rfl rfl rfl rfl rfl (fun _ => rfl)

/-- C9: (i) the constructor takes a caller-supplied `errorPolicy` object as
is, without filling omitted slots from the `continue` defaults; (ii) with the
listener and emit slots omitted, a throwing listener makes `handleError`
throw the internal invalid-error-type error in place of the original error,
the remaining listeners of the emission are skipped, and the invalid-type
error minted at the omitted emit slot propagates out of `emit` to the
caller. -/
theorem C9_omitted_policy_slots :
    (∀ (lm : MId) (opts : EventBrokerOptions) (h : ArrHeap) (pol0 : ErrorPolicy),
      opts.errorPolicy = some pol0 →
      (constructBroker lm opts h).1.errorPolicy = pol0) ∧
    (∀ (env : Env) (pol : ErrorPolicy) (k : Name) (d : Data) (sid : SetId)
      (l1 l2 : LId) (e : Err) (fuel : Nat) (st : BState),
      pol.onListenerError = none →
      pol.onEmitError = none →
      st.u.middlewares = [] →
      alookup st.u.map k = some sid →
      (heapGet st.u.heap sid).entries = [some l1, some l2] →
      (∀ ust, env.lbeh l1 d ust = (ust, some e)) →
      emit env pol k d (fuel + 1) st =
        some (⟨⟨st.u.map, st.u.heap, st.u.nextId, st.u.middlewares,
                st.u.trace ++ [.call l1 d]⟩, st.calls ++ [(l1, d)]⟩,
              some (.invalidErrorType .emit))) := by
  constructor
  · intro lm opts h pol0 hp
    show opts.errorPolicy.getD DEFAULT_ERROR_POLICY = pol0
    rw [hp]
    rfl
  · intro env pol k d sid l1 l2 e fuel st hpolL hpolE hmw hmap hset hl1
    have hb : buildCompose env pol ⟨k, d⟩ st.u.middlewares
        (terminal env pol k (fuel + 1)) st
        = (st, .ok (terminal env pol k (fuel + 1))) := by
      rw [hmw]
      exact buildCompose_nil env pol ⟨k, d⟩ _ st
    have hidx : (heapGet st.u.heap sid).entries[0]? = some (some l1) := by
      rw [hset]
      rfl
    have hloop : termLoop env pol sid ⟨k, d⟩ (fuel + 1) 0 st =
        some (⟨⟨st.u.map, st.u.heap, st.u.nextId, st.u.middlewares,
                st.u.trace ++ [.call l1 d]⟩, st.calls ++ [(l1, d)]⟩,
              some (.invalidErrorType .listener)) :=
      termLoop_call_abort env pol sid ⟨k, d⟩ fuel 0 st l1 _ _ e _ hidx (hl1 _)
        (handleError_none env pol e ⟨k, d⟩ .listener _ hpolL)
    have hterm : terminal env pol k (fuel + 1) ⟨k, d⟩ st =
        some (⟨⟨st.u.map, st.u.heap, st.u.nextId, st.u.middlewares,
                st.u.trace ++ [.call l1 d]⟩, st.calls ++ [(l1, d)]⟩,
              some (.invalidErrorType .listener)) :=
      (terminal_lookup_some env pol k (fuel + 1) ⟨k, d⟩ st sid hmap).trans hloop
    rw [emit_eq_composed_throw env pol k d (fuel + 1) st st _ _ _ hb hterm,
      emitCatch_none_slot env pol k d _ _ hpolE]

/-- Witness for C9: a policy object with only the middleware slot present is
kept as is by the constructor, and the omitted-slot emission of the scenario
throws the invalid-error-type error for the emit tag. -/
theorem C9_omitted_policy_slots_witness :
    (constructBroker 0 ⟨false, none, some polW9, none⟩ ⟨[], 0⟩).1.errorPolicy
      = polW9 ∧
    emit envW polW9 5 42 10 stW =
      some (stWmid, some (.invalidErrorType .emit)) := by
  constructor
  · exact C9_omitted_policy_slots.1 0 ⟨false, none, some polW9, none⟩ ⟨[], 0⟩
      polW9 rfl
  · exact C9_omitted_policy_slots.2 envW polW9 5 42 0 0 1 (.thrown 7) 9 stW
      rfl rfl rfl rfl rfl (fun _ => rfl)

/-- C10: when `createEventBroker` is called with `logger` truthy and a
caller-supplied middlewares array, the constructor pushes the logger
middleware onto that very array: after construction the caller's array holds
its previous contents followed by the logger middleware. -/
theorem C10_constructor_mutates_options (lm : MId) (opts : EventBrokerOptions)
    (h : ArrHeap) (aid : Nat) (arr : List MId)
    (hlog : opts.logger = true) (hmw : opts.middlewares = some aid)
    (harr : alookup h.arrays aid = some arr) :
    alookup (createEventBroker lm (some opts) h).2.arrays aid
      = some (arr ++ [lm]) := by
  show alookup (constructBroker lm opts h).2.arrays aid = some (arr ++ [lm])
  simp only [constructBroker, hmw, hlog, if_true, harr, Option.getD_some]
  exact alookup_aupdate_self (arr ++ [lm]) (by rw [harr]; rfl)

/-- Witness for C10: constructing with logger on and caller array 0 holding
middleware 4 leaves array 0 holding middleware 4 followed by the logger
middleware 9. -/
theorem C10_constructor_mutates_options_witness :
    alookup (createEventBroker 9 (some optsW) arrW).2.arrays 0 = some [4, 9] :=
  C10_constructor_mutates_options 9 optsW arrW 0 [4] rfl rfl rfl

/-- C3: with `onListenerError: "continue"` and two listeners registered for
the same event where the first throws, a single `emit` still invokes the
second listener with the emitted data (both appear in the ghost call list, in
order), and `emit` returns normally. -/
theorem C3_error_isolation (env : Env) (pol : ErrorPolicy) (k : Name)
    (d : Data) (sid : SetId) (l1 l2 : LId) (e : Err) (r2 : Option Err)
    (fuel : Nat) (st : BState)
    (hpolL : pol.onListenerError = some .CONTINUE)
    (hmw : st.u.middlewares = [])
    (hmap : alookup st.u.map k = some sid)
    (hset : (heapGet st.u.heap sid).entries = [some l1, some l2])
    (hl1 : ∀ ust, env.lbeh l1 d ust = (ust, some e))
    (hl2 : ∀ ust, env.lbeh l2 d ust = (ust, r2)) :
    ∃ ust', emit env pol k d (fuel + 3) st =
      some (⟨ust', st.calls ++ [(l1, d), (l2, d)]⟩, none) := by
  have hb : buildCompose env pol ⟨k, d⟩ st.u.middlewares
      (terminal env pol k (fuel + 3)) st
      = (st, .ok (terminal env pol k (fuel + 3))) := by
    rw [hmw]
    exact buildCompose_nil env pol ⟨k, d⟩ _ st
  have hidx0 : (heapGet st.u.heap sid).entries[0]? = some (some l1) := by
    rw [hset]
    rfl
  have h1 : termLoop env pol sid ⟨k, d⟩ (fuel + 3) 0 st =
      termLoop env pol sid ⟨k, d⟩ (fuel + 2) 1
        ⟨⟨st.u.map, st.u.heap, st.u.nextId, st.u.middlewares,
          (st.u.trace ++ [.call l1 d]) ++ [.errLog .listener k]⟩,
         st.calls ++ [(l1, d)]⟩ :=
    termLoop_call_handled env pol sid ⟨k, d⟩ (fuel + 2) 0 st l1 _ _ e true
      hidx0 (hl1 _) (handleError_CONTINUE env pol e ⟨k, d⟩ .listener _ hpolL)
  set st1 : BState :=
    ⟨⟨st.u.map, st.u.heap, st.u.nextId, st.u.middlewares,
      (st.u.trace ++ [.call l1 d]) ++ [.errLog .listener k]⟩,
     st.calls ++ [(l1, d)]⟩ with hst1
  have hidx1 : (heapGet st1.u.heap sid).entries[1]? = some (some l2) := by
    rw [hst1]
    show (heapGet st.u.heap sid).entries[1]? = some (some l2)
    rw [hset]
    rfl
  cases hr2 : r2 with
  | none =>
    have h2 : termLoop env pol sid ⟨k, d⟩ (fuel + 2) 1 st1 =
        termLoop env pol sid ⟨k, d⟩ (fuel + 1) 2
          ⟨⟨st1.u.map, st1.u.heap, st1.u.nextId, st1.u.middlewares,
            st1.u.trace ++ [.call l2 d]⟩, st1.calls ++ [(l2, d)]⟩ :=
      termLoop_call_ok env pol sid ⟨k, d⟩ (fuel + 1) 1 st1 l2 _
        hidx1 (by rw [hl2, hr2])
    have hidx2 :
        (heapGet (⟨⟨st1.u.map, st1.u.heap, st1.u.nextId, st1.u.middlewares,
          st1.u.trace ++ [.call l2 d]⟩, st1.calls ++ [(l2, d)]⟩ : BState).u.heap
            sid).entries[2]? = none := by
      show (heapGet st1.u.heap sid).entries[2]? = none
      rw [hst1]
      show (heapGet st.u.heap sid).entries[2]? = none
      rw [hset]
      rfl
    have h3 := termLoop_done env pol sid ⟨k, d⟩ fuel 2 _ hidx2
    have hterm : terminal env pol k (fuel + 3) ⟨k, d⟩ st =
        some (⟨⟨st1.u.map, st1.u.heap, st1.u.nextId, st1.u.middlewares,
          st1.u.trace ++ [.call l2 d]⟩, st1.calls ++ [(l2, d)]⟩, none) :=
      (terminal_lookup_some env pol k (fuel + 3) ⟨k, d⟩ st sid hmap).trans
        ((h1.trans h2).trans h3)
    refine ⟨⟨st1.u.map, st1.u.heap, st1.u.nextId, st1.u.middlewares,
      st1.u.trace ++ [.call l2 d]⟩, ?_⟩
    rw [emit_eq_composed_ok env pol k d (fuel + 3) st st _ _ hb hterm]
    simp [hst1]
  | some e2 =>
    have h2 : termLoop env pol sid ⟨k, d⟩ (fuel + 2) 1 st1 =
        termLoop env pol sid ⟨k, d⟩ (fuel + 1) 2
          ⟨⟨st1.u.map, st1.u.heap, st1.u.nextId, st1.u.middlewares,
            (st1.u.trace ++ [.call l2 d]) ++ [.errLog .listener k]⟩,
           st1.calls ++ [(l2, d)]⟩ :=
      termLoop_call_handled env pol sid ⟨k, d⟩ (fuel + 1) 1 st1 l2 _ _ e2 true
        hidx1 (by rw [hl2, hr2])
        (handleError_CONTINUE env pol e2 ⟨k, d⟩ .listener _ hpolL)
    have hidx2 :
        (heapGet (⟨⟨st1.u.map, st1.u.heap, st1.u.nextId, st1.u.middlewares,
          (st1.u.trace ++ [.call l2 d]) ++ [.errLog .listener k]⟩,
          st1.calls ++ [(l2, d)]⟩ : BState).u.heap sid).entries[2]? = none := by
      show (heapGet st1.u.heap sid).entries[2]? = none
      rw [hst1]
      show (heapGet st.u.heap sid).entries[2]? = none
      rw [hset]
      rfl
    have h3 := termLoop_done env pol sid ⟨k, d⟩ fuel 2 _ hidx2
    have hterm : terminal env pol k (fuel + 3) ⟨k, d⟩ st =
        some (⟨⟨st1.u.map, st1.u.heap, st1.u.nextId, st1.u.middlewares,
          (st1.u.trace ++ [.call l2 d]) ++ [.errLog .listener k]⟩,
          st1.calls ++ [(l2, d)]⟩, none) :=
      (terminal_lookup_some env pol k (fuel + 3) ⟨k, d⟩ st sid hmap).trans
        ((h1.trans h2).trans h3)
    refine ⟨⟨st1.u.map, st1.u.heap, st1.u.nextId, st1.u.middlewares,
      (st1.u.trace ++ [.call l2 d]) ++ [.errLog .listener k]⟩, ?_⟩
    rw [emit_eq_composed_ok env pol k d (fuel + 3) st st _ _ hb hterm]
    simp [hst1]

/-- Witness for C3: listeners 0 (throws error 7) and 1 (inert) for event 5
under the default policy — both are invoked and `emit` returns normally. -/
theorem C3_error_isolation_witness :
    ∃ ust', emit envW DEFAULT_ERROR_POLICY 5 42 10 stW =
      some (⟨ust', stW.calls ++ [(0, 42), (1, 42)]⟩, none) :=
  C3_error_isolation envW DEFAULT_ERROR_POLICY 5 42 0 0 1 (.thrown 7) none 7 stW
    rfl rfl rfl rfl (fun _ => rfl) (fun _ => rfl)

/-- C4, counterexample: middleware 0 constructs successfully but its layer
throws error 13 when invoked during dispatch; the middleware slot is the
symbolic `stop`, so if invocation errors were routed to `onMiddlewareError`,
`emit` would throw — instead `emit` returns normally and the diagnostic trace
shows the error was logged by the `continue` strategy of the emit slot. -/
theorem C4_counterexample :
    polC4.onMiddlewareError = some PolicyV.STOP ∧
    resultErr (emit envC4 polC4 5 3 10 stC4) = none ∧
    resultTrace (emit envC4 polC4 5 3 10 stC4) = some [TEntry.errLog .emit 5] := by
  decide

/-- C4 (amended): an error thrown while constructing a middleware layer — the
call of the middleware function itself during composition — is routed to the
middleware slot, and when that slot resolves to continue the faulty layer is
skipped and its `next` continuation is used directly; an error thrown when the
constructed layer is invoked escapes the composition and is handled by the
emit-level guard instead. -/
theorem C4_middleware_error_routing :
    (∀ (env : Env) (pol : ErrorPolicy) (ev0 : Event) (m : MId) (rest : List MId)
      (next : Layer) (st st1 st2 : BState) (acc : Layer) (e : Err),
      buildCompose env pol ev0 rest next st = (st1, .ok acc) →
      env.mbeh m acc st1 = (st2, .error e) →
      resolvesContinue pol.onMiddlewareError →
      ∃ ust', buildCompose env pol ev0 (m :: rest) next st
        = (⟨ust', st2.calls⟩, .ok acc)) ∧
    (∀ (env : Env) (pol : ErrorPolicy) (k : Name) (d : Data) (fuel : Nat)
      (st st1 st2 : BState) (e : Err) (c : Layer),
      buildCompose env pol ⟨k, d⟩ st.u.middlewares (terminal env pol k fuel) st
        = (st1, .ok c) →
      c ⟨k, d⟩ st1 = some (st2, some e) →
      emit env pol k d fuel st = emitCatch env pol k d e st2) := by
  constructor
  · intro env pol ev0 m rest next st st1 st2 acc e hb hm hres
    obtain ⟨ust', hh⟩ := handleError_resolved env pol e ev0 .middleware st2.u hres
    refine ⟨ust', ?_⟩
    simp only [buildCompose, hb, hm, hh, if_true]
  · intro env pol k d fuel st st1 st2 e c hb hc
    exact emit_eq_composed_throw env pol k d fuel st st1 st2 e c hb hc

/-- Witness for C4: a construction-throwing middleware under the default
(continue) policy is skipped, the accumulated continuation surviving; and the
invocation-throwing middleware of the counterexample scenario is handled by
the emit-level guard. -/
theorem C4_middleware_error_routing_witness :
    (∃ ust', buildCompose envW3 DEFAULT_ERROR_POLICY ⟨5, 42⟩ [0]
        (terminal envW3 DEFAULT_ERROR_POLICY 5 10) stU3
      = (⟨ust', stU3.calls⟩, .ok (terminal envW3 DEFAULT_ERROR_POLICY 5 10))) ∧
    emit envC4 polC4 5 3 10 stC4 = emitCatch envC4 polC4 5 3 (.thrown 13) stC4 := by
  constructor
  · exact C4_middleware_error_routing.1 envW3 DEFAULT_ERROR_POLICY ⟨5, 42⟩ 0 []
      (terminal envW3 DEFAULT_ERROR_POLICY 5 10) stU3 stU3 stU3
      (terminal envW3 DEFAULT_ERROR_POLICY 5 10) (.thrown 21) rfl rfl
      (Or.inl rfl)
  · exact C4_middleware_error_routing.2 envC4 polC4 5 3 10 stC4 stC4 stC4
      (.thrown 13) (fun _ st1 => some (st1, some (.thrown 13))) rfl rfl

/-- C7: with middleware 0 then middleware 1 registered via `use` and terminal
listener 2, a single `emit` runs middleware 0's pre-`next` logic, then
middleware 1's, then the listener, then middleware 1's post-`next` logic,
then middleware 0's — the first-registered middleware is the outermost
wrapper, for every payload. -/
theorem C7_middleware_order (d : Data) :
    resultTrace (emit envC7 DEFAULT_ERROR_POLICY 5 d 10 (stC7 5)) =
      some [.note 10, .note 20, .call 2 d, .note 21, .note 11] ∧
    resultCalls (emit envC7 DEFAULT_ERROR_POLICY 5 d 10 (stC7 5)) =
      some [(2, d)] :=
  ⟨rfl, rfl⟩

/-- C5, counterexample: the set object for event 5 holds exactly listener 2
when iteration is established, but listener 2 registers listener 3 for
event 5 from inside its invocation, and the same emission then invokes
listener 3 as well — live JS `Set` iteration, not a snapshot. -/
theorem C5_counterexample :
    JSSet.alive (heapGet stC5.u.heap 0) = [2] ∧
    alookup stC5.u.map 5 = some 0 ∧
    resultCalls (emit envC5 DEFAULT_ERROR_POLICY 5 9 10 stC5) =
      some [(2, 9), (3, 9)] ∧
    resultErr (emit envC5 DEFAULT_ERROR_POLICY 5 9 10 stC5) = none := by
  decide

/-- Liveness-free runs of the terminal loop: under the symbolic `continue`
listener policy, when no listener behaviour changes the set object being
iterated, the loop starting at index `i` invokes exactly the values alive in
the entries from `i` on, and leaves the set object unchanged. -/
theorem termLoop_snapshot (env : Env) (pol : ErrorPolicy) (sid : SetId)
    (ev : Event) (hpol : pol.onListenerError = some .CONTINUE)
    (hpres : ∀ l d' ust, heapGet (env.lbeh l d' ust).1.heap sid
      = heapGet ust.heap sid) :
    ∀ (fuel i : Nat) (st : BState),
      (heapGet st.u.heap sid).entries.length ≤ fuel + i →
      ∃ ust', heapGet ust'.heap sid = heapGet st.u.heap sid ∧
        termLoop env pol sid ev (fuel + 1) i st =
          some (⟨ust', st.calls ++
            (((heapGet st.u.heap sid).entries.drop i).filterMap id).map
              (fun l => (l, ev.data))⟩, none) := by
  intro fuel
  induction fuel with
  | zero =>
    intro i st hlen
    rw [Nat.zero_add] at hlen
    refine ⟨st.u, rfl, ?_⟩
    rw [termLoop_done env pol sid ev 0 i st (List.getElem?_eq_none hlen),
      List.drop_eq_nil_of_le hlen]
    simp
  | succ f ih =>
    intro i st hlen
    cases h : (heapGet st.u.heap sid).entries[i]? with
    | none =>
      have hge : (heapGet st.u.heap sid).entries.length ≤ i :=
        List.getElem?_eq_none_iff.mp h
      refine ⟨st.u, rfl, ?_⟩
      rw [termLoop_done env pol sid ev (f + 1) i st h,
        List.drop_eq_nil_of_le hge]
      simp
    | some o =>
      obtain ⟨hi, hget⟩ := List.getElem?_eq_some.mp h
      have hdrop := List.drop_eq_getElem_cons hi
      cases o with
      | none =>
        obtain ⟨ust', hp, heq⟩ := ih (i + 1) st (by omega)
        refine ⟨ust', hp, ?_⟩
        rw [termLoop_skip env pol sid ev (f + 1) i st h, heq, hdrop, hget]
        simp
      | some l =>
        cases hl : env.lbeh l ev.data
            ⟨st.u.map, st.u.heap, st.u.nextId, st.u.middlewares,
             st.u.trace ++ [.call l ev.data]⟩ with
        | mk ust2 r =>
          have hheap2 : heapGet ust2.heap sid = heapGet st.u.heap sid := by
            have hh := hpres l ev.data
              ⟨st.u.map, st.u.heap, st.u.nextId, st.u.middlewares,
               st.u.trace ++ [.call l ev.data]⟩
            rw [hl] at hh
            exact hh
          cases r with
          | none =>
            obtain ⟨ust', hp, heq⟩ :=
              ih (i + 1) ⟨ust2, st.calls ++ [(l, ev.data)]⟩
                (by show (heapGet ust2.heap sid).entries.length ≤ f + (i + 1)
                    rw [hheap2]; omega)
            dsimp only at heq hp
            rw [hheap2] at heq hp
            refine ⟨ust', hp, ?_⟩
            rw [termLoop_call_ok env pol sid ev (f + 1) i st l ust2 h hl, heq,
              hdrop, hget]
            simp
          | some e =>
            have hcont := handleError_CONTINUE env pol e ⟨ev.name, ev.data⟩
              .listener ust2 hpol
            obtain ⟨ust', hp, heq⟩ :=
              ih (i + 1) ⟨⟨ust2.map, ust2.heap, ust2.nextId, ust2.middlewares,
                ust2.trace ++ [.errLog .listener ev.name]⟩,
                st.calls ++ [(l, ev.data)]⟩
                (by show (heapGet ust2.heap sid).entries.length ≤ f + (i + 1)
                    rw [hheap2]; omega)
            dsimp only at heq hp
            rw [hheap2] at heq hp
            refine ⟨ust', hp, ?_⟩
            rw [termLoop_call_handled env pol sid ev (f + 1) i st l ust2 _ e true
              h hl hcont, heq, hdrop, hget]
            simp

/-- C5 (amended): iteration over an event's listener set is live, per JS
`Set` semantics — the counterexample shows a listener added to the set during
the emission being invoked by that same emission.  The snapshot reading of the
claim holds exactly when no listener invoked during the emission changes the
iterated set object: the terminal stage then invokes precisely the membership
of `k`'s listener set as it was when iteration was established, in order,
each with the dispatched payload. -/
theorem C5_snapshot_iteration (env : Env) (pol : ErrorPolicy) (k : Name)
    (d : Data) (sid : SetId) (fuel : Nat) (st : BState)
    (hpol : pol.onListenerError = some .CONTINUE)
    (hpres : ∀ l d' ust, heapGet (env.lbeh l d' ust).1.heap sid
      = heapGet ust.heap sid)
    (hmap : alookup st.u.map k = some sid)
    (hlen : (heapGet st.u.heap sid).entries.length ≤ fuel) :
    ∃ ust', terminal env pol k (fuel + 1) ⟨k, d⟩ st =
      some (⟨ust', st.calls ++
        (JSSet.alive (heapGet st.u.heap sid)).map (fun l => (l, d))⟩, none) := by
  obtain ⟨ust', _, heq⟩ := termLoop_snapshot env pol sid ⟨k, d⟩ hpol hpres fuel 0
    st (by omega)
  exact ⟨ust', (terminal_lookup_some env pol k (fuel + 1) ⟨k, d⟩ st sid
    hmap).trans heq⟩

/-- Witness for the amended C5: two inert listeners for event 5 under the
default policy are both invoked, exactly matching the set's membership at the
start of iteration. -/
theorem C5_snapshot_iteration_witness :
    ∃ ust', terminal envId DEFAULT_ERROR_POLICY 5 10 ⟨5, 42⟩ stW =
      some (⟨ust', stW.calls ++
        (JSSet.alive (heapGet stW.u.heap 0)).map (fun l => (l, 42))⟩, none) :=
  C5_snapshot_iteration envId DEFAULT_ERROR_POLICY 5 42 0 9 stW rfl
    (fun _ _ _ => rfl) rfl (by decide)

/-- C6, counterexample: listener 4 is the `once` wrapper of a user listener
that writes `note 99` and throws; across two emissions under the default
policy the wrapper is invoked twice (ghost call list) and the user listener
observably runs twice (two `note 99` entries) — the wrapper only
unsubscribes itself after the user listener returns normally, so a throwing
listener is not removed. -/
theorem C6_counterexample :
    stateCalls (emitN envC6 DEFAULT_ERROR_POLICY 5 1 10 2 stC6) =
      some [(4, 1), (4, 1)] ∧
    stateTrace (emitN envC6 DEFAULT_ERROR_POLICY 5 1 10 2 stC6) =
      some [.call 4 1, .note 99, .errLog .listener 5,
            .call 4 1, .note 99, .errLog .listener 5] := by
  decide

/-- A broker with no entry for `k` and no middlewares is a fixed point of any
number of emissions for `k`. -/
theorem emitN_idle (env : Env) (pol : ErrorPolicy) (k : Name) (d : Data)
    (fuel : Nat) : ∀ (n : Nat) (st : BState),
    alookup st.u.map k = none → st.u.middlewares = [] →
    emitN env pol k d fuel n st = some st := by
  intro n
  induction n with
  | zero => intro st _ _; rfl
  | succ m ih =>
    intro st hk hmw
    have hb : buildCompose env pol ⟨k, d⟩ st.u.middlewares
        (terminal env pol k fuel) st = (st, .ok (terminal env pol k fuel)) := by
      rw [hmw]
      exact buildCompose_nil env pol ⟨k, d⟩ _ st
    have hemit : emit env pol k d fuel st = some (st, none) :=
      emit_eq_composed_ok env pol k d fuel st st st _ hb
        (terminal_lookup_none env pol k fuel ⟨k, d⟩ st hk)
    simp only [emitN, hemit]
    exact ih st hk hmw

/-- C6 (amended): after `once(k, f)` on a fresh broker with no
re-registration, `f` is invoked exactly once across any positive number of
subsequent `emit(k, ...)` calls, provided each invocation of `f` returns
normally (and does not itself mutate the broker): the wrapper runs `f`, then
unsubscribes itself, and every later emission finds no listeners.  (When `f`
throws, the self-removal is skipped and `f` runs again on later emissions —
see the counterexample.) -/
theorem C6_once_exactly_once (env : Env) (pol : ErrorPolicy) (k : Name)
    (d : Data) (fuel : Nat) (w : LId)
    (fb : Data → UState → UState × Option Err) (n : Nat)
    (hw : ∀ d' ust, env.lbeh w d' ust = onceWrapper fb k w d' ust)
    (hfb : ∀ d' ust, fb d' ust = (ust, none))
    (hn : 1 ≤ n) :
    emitN env pol k d (fuel + 2) n
        (initB (once DEFAULT_MAX_LISTENERS k w (initU []))) =
      some ⟨⟨[], [(0, ⟨[none]⟩)], 1, [], [.call w d]⟩, [(w, d)]⟩ := by
  have hst0 : once DEFAULT_MAX_LISTENERS k w (initU []) =
      ⟨[(k, 0)], [(0, ⟨[some w]⟩)], 1, [], []⟩ := by
    simp [once, «on», initU, alookup, heapGet, aupdate, JSSet.empty, JSSet.add,
      JSSet.memb, JSSet.size, JSSet.alive, DEFAULT_MAX_LISTENERS]
  have hoff : off k w ⟨[(k, 0)], [(0, ⟨[some w]⟩)], 1, [], [.call w d]⟩ =
      ⟨[], [(0, ⟨[none]⟩)], 1, [], [.call w d]⟩ := by
    simp [off, alookup, heapGet, aupdate, aremove, JSSet.delete, JSSet.size,
      JSSet.alive]
  have hl : env.lbeh w d ⟨[(k, 0)], [(0, ⟨[some w]⟩)], 1, [],
      [] ++ [TEntry.call w d]⟩ =
      (⟨[], [(0, ⟨[none]⟩)], 1, [], [.call w d]⟩, none) := by
    rw [hw, onceWrapper, hfb]
    show (off k w ⟨[(k, 0)], [(0, ⟨[some w]⟩)], 1, [], [.call w d]⟩, none) = _
    rw [hoff]
  have hmap0 : alookup ([(k, 0)] : List (Name × SetId)) k = some 0 := by
    simp [alookup]
  have h1 : termLoop env pol 0 ⟨k, d⟩ (fuel + 2) 0
      ⟨⟨[(k, 0)], [(0, ⟨[some w]⟩)], 1, [], []⟩, []⟩ =
      termLoop env pol 0 ⟨k, d⟩ (fuel + 1) 1
        ⟨⟨[], [(0, ⟨[none]⟩)], 1, [], [.call w d]⟩, [] ++ [(w, d)]⟩ :=
    termLoop_call_ok env pol 0 ⟨k, d⟩ (fuel + 1) 0
      ⟨⟨[(k, 0)], [(0, ⟨[some w]⟩)], 1, [], []⟩, []⟩ w _ rfl hl
  have h2 : termLoop env pol 0 ⟨k, d⟩ (fuel + 1) 1
      ⟨⟨[], [(0, ⟨[none]⟩)], 1, [], [.call w d]⟩, [] ++ [(w, d)]⟩ =
      some (⟨⟨[], [(0, ⟨[none]⟩)], 1, [], [.call w d]⟩, [] ++ [(w, d)]⟩, none) :=
    termLoop_done env pol 0 ⟨k, d⟩ fuel 1 _ rfl
  have hterm : terminal env pol k (fuel + 2) ⟨k, d⟩
      ⟨⟨[(k, 0)], [(0, ⟨[some w]⟩)], 1, [], []⟩, []⟩ =
      some (⟨⟨[], [(0, ⟨[none]⟩)], 1, [], [.call w d]⟩, [] ++ [(w, d)]⟩, none) :=
    (terminal_lookup_some env pol k (fuel + 2) ⟨k, d⟩ _ 0 hmap0).trans
      (h1.trans h2)
  have hemit1 : emit env pol k d (fuel + 2)
      ⟨⟨[(k, 0)], [(0, ⟨[some w]⟩)], 1, [], []⟩, []⟩ =
      some (⟨⟨[], [(0, ⟨[none]⟩)], 1, [], [.call w d]⟩, [] ++ [(w, d)]⟩, none) :=
    emit_eq_composed_ok env pol k d (fuel + 2) _ _ _ _
      (buildCompose_nil env pol ⟨k, d⟩ _ _) hterm
  obtain ⟨m, rfl⟩ : ∃ m, n = m + 1 := by
    cases n with
    | zero => omega
    | succ m => exact ⟨m, rfl⟩
  rw [initB, hst0]
  simp only [emitN, hemit1]
  exact emitN_idle env pol k d (fuel + 2) m _ rfl rfl

/-- Witness for the amended C6: the inert once-wrapper 4 on event 5, emitted
three times — the wrapper (and hence the user listener) runs exactly once. -/
theorem C6_once_exactly_once_witness :
    emitN envOnceW DEFAULT_ERROR_POLICY 5 1 10 3
        (initB (once DEFAULT_MAX_LISTENERS 5 4 (initU []))) =
      some ⟨⟨[], [(0, ⟨[none]⟩)], 1, [], [.call 4 1]⟩, [(4, 1)]⟩ :=
  C6_once_exactly_once envOnceW DEFAULT_ERROR_POLICY 5 1 8 4
    (fun _ u => (u, none)) 3 (fun _ _ => rfl) (fun _ _ => rfl) (by omega)

/-! Registry invariant preservation (C8). -/

theorem JSSet.size_le_add (s : JSSet) (l : LId) : s.size ≤ (s.add l).size := by
  rw [JSSet.add]
  split
  · exact Nat.le_refl _
  · simp [JSSet.size, JSSet.alive, List.filterMap_append]

theorem handleError_wf (env : Env) (pol : ErrorPolicy) (e : Err) (ev : Event)
    (t : ErrorType) (ust : UState)
    (henvH : ∀ h e ev ust, Wf ust → Wf (env.hbeh h e ev ust))
    (hu : Wf ust) : Wf (handleError env pol e ev t ust).1 := by
  rw [handleError]
  cases slotOf pol t with
  | none => exact hu
  | some p =>
    cases p with
    | CONTINUE => exact hu
    | STOP => exact hu
    | handler hid => exact henvH hid e ev ust hu

theorem termLoop_wf (env : Env) (pol : ErrorPolicy) (sid : SetId) (ev : Event)
    (henvL : ∀ l d ust, Wf ust → Wf (env.lbeh l d ust).1)
    (henvH : ∀ h e ev ust, Wf ust → Wf (env.hbeh h e ev ust)) :
    ∀ (fuel i : Nat) (st st' : BState) (r : Option Err), Wf st.u →
      termLoop env pol sid ev fuel i st = some (st', r) → Wf st'.u := by
  intro fuel
  induction fuel with
  | zero =>
    intro i st st' r _ h
    simp [termLoop] at h
  | succ f ih =>
    intro i st st' r hu h
    rw [termLoop] at h
    cases hidx : (heapGet st.u.heap sid).entries[i]? with
    | none =>
      rw [hidx] at h
      simp only at h
      obtain ⟨h1, _⟩ := Prod.mk.injEq .. ▸ (Option.some.injEq .. ▸ h)
      exact h1 ▸ hu
    | some o =>
      rw [hidx] at h
      cases o with
      | none =>
        simp only at h
        exact ih (i + 1) st st' r hu h
      | some l =>
        simp only at h
        cases hl : env.lbeh l ev.data
            ⟨st.u.map, st.u.heap, st.u.nextId, st.u.middlewares,
             st.u.trace ++ [.call l ev.data]⟩ with
        | mk ust2 r2 =>
          have hu2 : Wf ust2 := by
            have hh := henvL l ev.data
              ⟨st.u.map, st.u.heap, st.u.nextId, st.u.middlewares,
               st.u.trace ++ [.call l ev.data]⟩ hu
            rw [hl] at hh
            exact hh
          rw [hl] at h
          cases r2 with
          | none =>
            simp only at h
            exact ih (i + 1) _ st' r hu2 h
          | some e =>
            simp only at h
            cases hh : handleError env pol e ⟨ev.name, ev.data⟩ .listener ust2 with
            | mk ust3 hr =>
              have hu3 : Wf ust3 := by
                have hw := handleError_wf env pol e ⟨ev.name, ev.data⟩ .listener
                  ust2 henvH hu2
                rw [hh] at hw
                exact hw
              rw [hh] at h
              cases hr with
              | ok b =>
                simp only at h
                exact ih (i + 1) _ st' r hu3 h
              | error e2 =>
                simp only at h
                obtain ⟨h1, _⟩ := Prod.mk.injEq .. ▸ (Option.some.injEq .. ▸ h)
                exact h1 ▸ hu3

theorem terminal_wf (env : Env) (pol : ErrorPolicy) (k : Name) (fuel : Nat)
    (henvL : ∀ l d ust, Wf ust → Wf (env.lbeh l d ust).1)
    (henvH : ∀ h e ev ust, Wf ust → Wf (env.hbeh h e ev ust)) :
    LayerPreserves (terminal env pol k fuel) := by
  intro ev st st' r hu h
  rw [terminal] at h
  cases hlk : alookup st.u.map k with
  | none =>
    rw [hlk] at h
    simp only at h
    obtain ⟨h1, _⟩ := Prod.mk.injEq .. ▸ (Option.some.injEq .. ▸ h)
    exact h1 ▸ hu
  | some sid =>
    rw [hlk] at h
    simp only at h
    exact termLoop_wf env pol sid ev henvL henvH fuel 0 st st' r hu h

theorem buildCompose_wf (env : Env) (pol : ErrorPolicy) (ev0 : Event)
    (henv : EnvPreserves env) :
    ∀ (mws : List MId) (next : Layer) (st : BState), LayerPreserves next →
      Wf st.u →
      Wf (buildCompose env pol ev0 mws next st).1.u ∧
      (∀ L, (buildCompose env pol ev0 mws next st).2 = .ok L →
        LayerPreserves L) := by
  intro mws
  induction mws with
  | nil =>
    intro next st hnext hu
    refine ⟨hu, ?_⟩
    intro L hL
    rw [buildCompose_nil] at hL
    injection hL with hL
    exact hL ▸ hnext
  | cons m rest ih =>
    intro next st hnext hu
    obtain ⟨hu1, hok⟩ := ih next st hnext hu
    cases hrec : buildCompose env pol ev0 rest next st with
    | mk st1 res =>
      rw [hrec] at hu1 hok
      dsimp only at hu1 hok
      cases res with
      | error e =>
        simp only [buildCompose, hrec]
        exact ⟨hu1, fun L hL => Except.noConfusion hL⟩
      | ok acc =>
        have hacc : LayerPreserves acc := hok acc rfl
        cases hm : env.mbeh m acc st1 with
        | mk st2 mres =>
          have hpair := henv.2.2 m acc st1 hacc hu1
          rw [hm] at hpair
          dsimp only at hpair
          obtain ⟨hu2, hlay⟩ := hpair
          cases mres with
          | ok layer =>
            simp only [buildCompose, hrec, hm]
            refine ⟨hu2, ?_⟩
            intro L hL
            injection hL with hL
            exact hL ▸ hlay layer rfl
          | error e =>
            cases hh : handleError env pol e ev0 .middleware st2.u with
            | mk ust3 hr =>
              have hu3 : Wf ust3 := by
                have hw := handleError_wf env pol e ev0 .middleware st2.u
                  henv.2.1 hu2
                rw [hh] at hw
                exact hw
              cases hr with
              | ok handled =>
                cases handled with
                | true =>
                  simp only [buildCompose, hrec, hm, hh, if_true]
                  refine ⟨hu3, ?_⟩
                  intro L hL
                  injection hL with hL
                  exact hL ▸ hacc
                | false =>
                  simp only [buildCompose, hrec, hm, hh]
                  refine ⟨?_, ?_⟩
                  · simp only [Bool.false_eq_true, if_false]
                    exact hu3
                  · simp only [Bool.false_eq_true, if_false]
                    intro L hL
                    exact Except.noConfusion hL
              | error e2 =>
                simp only [buildCompose, hrec, hm, hh]
                exact ⟨hu3, fun L hL => Except.noConfusion hL⟩

theorem emitCatch_wf (env : Env) (pol : ErrorPolicy) (k : Name) (d : Data)
    (e : Err) (st st' : BState) (r : Option Err)
    (henvH : ∀ h e ev ust, Wf ust → Wf (env.hbeh h e ev ust))
    (hu : Wf st.u) (h : emitCatch env pol k d e st = some (st', r)) :
    Wf st'.u := by
  rw [emitCatch] at h
  cases hh : handleError env pol e ⟨k, d⟩ .emit st.u with
  | mk ust hr =>
    have hu' : Wf ust := by
      have hw := handleError_wf env pol e ⟨k, d⟩ .emit st.u henvH hu
      rw [hh] at hw
      exact hw
    rw [hh] at h
    cases hr with
    | ok b =>
      simp only at h
      obtain ⟨h1, _⟩ := Prod.mk.injEq .. ▸ (Option.some.injEq .. ▸ h)
      exact h1 ▸ hu'
    | error e2 =>
      simp only at h
      obtain ⟨h1, _⟩ := Prod.mk.injEq .. ▸ (Option.some.injEq .. ▸ h)
      exact h1 ▸ hu'

theorem emit_preserves_wf (env : Env) (pol : ErrorPolicy) (k : Name) (d : Data)
    (fuel : Nat) (st st' : BState) (r : Option Err) (henv : EnvPreserves env)
    (hu : Wf st.u) (h : emit env pol k d fuel st = some (st', r)) :
    Wf st'.u := by
  rw [emit] at h
  cases hb : buildCompose env pol ⟨k, d⟩ st.u.middlewares
      (terminal env pol k fuel) st with
  | mk st1 res =>
    obtain ⟨hu1, hok⟩ := buildCompose_wf env pol ⟨k, d⟩ henv st.u.middlewares
      (terminal env pol k fuel) st (terminal_wf env pol k fuel henv.1 henv.2.1)
      hu
    rw [hb] at h hu1 hok
    dsimp only at hu1 hok
    cases res with
    | error e =>
      simp only at h
      exact emitCatch_wf env pol k d e st1 st' r henv.2.1 hu1 h
    | ok c =>
      simp only at h
      have hc : LayerPreserves c := hok c rfl
      cases hinv : c ⟨k, d⟩ st1 with
      | none =>
        rw [hinv] at h
        simp at h
      | some p =>
        cases p with
        | mk st2 r2 =>
          have hu2 : Wf st2.u := hc ⟨k, d⟩ st1 st2 r2 hu1 hinv
          rw [hinv] at h
          cases r2 with
          | none =>
            simp only at h
            obtain ⟨h1, _⟩ := Prod.mk.injEq .. ▸ (Option.some.injEq .. ▸ h)
            exact h1 ▸ hu2
          | some e =>
            simp only at h
            exact emitCatch_wf env pol k d e st2 st' r henv.2.1 hu2 h

theorem on_existing (maxL : Nat) (k : Name) (l : LId) (ust : UState)
    (sid : SetId) (hlk : alookup ust.map k = some sid) :
    «on» maxL k l ust =
      ⟨ust.map, aupdate ust.heap sid ((heapGet ust.heap sid).add l), ust.nextId,
       ust.middlewares,
       if maxL ≤ (heapGet ust.heap sid).size then ust.trace ++ [.warn k]
       else ust.trace⟩ := by
  rw [«on»]
  rw [if_pos (by rw [hlk]; rfl)]
  simp only [hlk]
  split <;> rfl

theorem on_new (maxL : Nat) (k : Name) (l : LId) (ust : UState)
    (hlk : alookup ust.map k = none)
    (hW1 : ∀ p ∈ ust.heap, p.1 < ust.nextId) :
    «on» maxL k l ust =
      ⟨ust.map ++ [(k, ust.nextId)],
       aupdate (ust.heap ++ [(ust.nextId, JSSet.empty)]) ust.nextId
         (JSSet.empty.add l),
       ust.nextId + 1, ust.middlewares,
       if maxL ≤ JSSet.empty.size then ust.trace ++ [.warn k]
       else ust.trace⟩ := by
  have hlk2 : alookup (ust.map ++ [(k, ust.nextId)]) k = some ust.nextId := by
    rw [alookup_append_right _ hlk]
    simp [alookup]
  have hheapN : heapGet (ust.heap ++ [(ust.nextId, JSSet.empty)]) ust.nextId
      = JSSet.empty := by
    rw [heapGet, alookup_append_right _ (alookup_none_of_lt hW1)]
    simp [alookup]
  rw [«on»]
  rw [if_neg (by rw [hlk]; simp)]
  simp only [hlk2, hheapN]
  split <;> rfl

theorem wf_insert (ust : UState) (sid : SetId) (l : LId) (hu : Wf ust)
    (hsid : (alookup ust.heap sid).isSome = true) (mw' : List MId)
    (tr' : List TEntry) :
    Wf ⟨ust.map, aupdate ust.heap sid ((heapGet ust.heap sid).add l),
        ust.nextId, mw', tr'⟩ := by
  obtain ⟨hW1, hW2, hW3, hW4⟩ := hu
  refine ⟨?_, ?_, hW3, ?_⟩
  · intro p hp
    have hf : p.1 ∈ (aupdate ust.heap sid ((heapGet ust.heap sid).add l)).map
        Prod.fst := List.mem_map_of_mem _ hp
    rw [aupdate_map_fst] at hf
    obtain ⟨q, hq, hq1⟩ := List.mem_map.mp hf
    rw [show p.1 = q.1 from hq1.symm]
    exact hW1 q hq
  · intro p hp
    rw [alookup_aupdate_isSome]
    exact hW2 p hp
  · intro p hp
    by_cases hps : p.2 = sid
    · rw [hps, heapGet, alookup_aupdate_self _ hsid]
      refine Nat.lt_of_lt_of_le ?_ (JSSet.size_le_add _ l)
      have h4 := hW4 p hp
      rw [hps] at h4
      exact h4
    · rw [heapGet, alookup_aupdate_ne _ _ hps]
      exact hW4 p hp

theorem wf_alloc_insert (ust : UState) (k : Name) (l : LId) (hu : Wf ust)
    (_hlk : alookup ust.map k = none) (mw' : List MId) (tr' : List TEntry) :
    Wf ⟨ust.map ++ [(k, ust.nextId)],
        aupdate (ust.heap ++ [(ust.nextId, JSSet.empty)]) ust.nextId
          (JSSet.empty.add l),
        ust.nextId + 1, mw', tr'⟩ := by
  obtain ⟨hW1, hW2, hW3, hW4⟩ := hu
  have hsome : (alookup (ust.heap ++ [(ust.nextId, JSSet.empty)])
      ust.nextId).isSome = true := by
    rw [alookup_append_right _ (alookup_none_of_lt hW1)]
    simp [alookup]
  have hsndlt : ∀ p ∈ ust.map, p.2 < ust.nextId := by
    intro p hp
    have hm := alookup_isSome_mem (hW2 p hp)
    obtain ⟨q, hq, hq1⟩ := List.mem_map.mp hm
    rw [show p.2 = q.1 from hq1.symm]
    exact hW1 q hq
  refine ⟨?_, ?_, ?_, ?_⟩
  · intro p hp
    have hf : p.1 ∈ (aupdate (ust.heap ++ [(ust.nextId, JSSet.empty)])
        ust.nextId (JSSet.empty.add l)).map Prod.fst :=
      List.mem_map_of_mem _ hp
    rw [aupdate_map_fst] at hf
    obtain ⟨q, hq, hq1⟩ := List.mem_map.mp hf
    rw [show p.1 = q.1 from hq1.symm]
    rcases List.mem_append.mp hq with hq | hq
    · exact Nat.lt_succ_of_lt (hW1 q hq)
    · rw [List.mem_singleton.mp hq]
      exact Nat.lt_succ_self _
  · intro p hp
    rw [alookup_aupdate_isSome]
    rcases List.mem_append.mp hp with hp | hp
    · obtain ⟨w, hw⟩ := Option.isSome_iff_exists.mp (hW2 p hp)
      rw [alookup_append_left hw]
      rfl
    · rw [List.mem_singleton.mp hp]
      exact hsome
  · rw [List.map_append]
    simp only [List.map_cons, List.map_nil]
    rw [List.nodup_append]
    refine ⟨hW3, List.nodup_singleton _, ?_⟩
    intro a ha hb
    rw [List.mem_singleton] at hb
    subst hb
    obtain ⟨p, hp, hp2⟩ := List.mem_map.mp ha
    exact absurd hp2 (Nat.ne_of_lt (hsndlt p hp))
  · intro p hp
    rcases List.mem_append.mp hp with hp | hp
    · have hne : p.2 ≠ ust.nextId := Nat.ne_of_lt (hsndlt p hp)
      rw [heapGet, alookup_aupdate_ne _ _ hne]
      obtain ⟨w, hw⟩ := Option.isSome_iff_exists.mp (hW2 p hp)
      rw [alookup_append_left hw]
      have h4 := hW4 p hp
      rw [heapGet, hw] at h4
      exact h4
    · rw [List.mem_singleton.mp hp]
      rw [heapGet, alookup_aupdate_self _ hsome]
      show 0 < (JSSet.empty.add l).size
      rw [JSSet.add]
      rw [if_neg (by simp [JSSet.memb, JSSet.empty])]
      simp [JSSet.size, JSSet.alive, JSSet.empty]

theorem on_wf (maxL : Nat) (k : Name) (l : LId) (ust : UState) (hu : Wf ust) :
    Wf («on» maxL k l ust) := by
  cases hlk : alookup ust.map k with
  | none =>
    rw [on_new maxL k l ust hlk hu.1]
    exact wf_alloc_insert ust k l hu hlk _ _
  | some sid =>
    rw [on_existing maxL k l ust sid hlk]
    exact wf_insert ust sid l hu (hu.2.1 (k, sid) (alookup_mem hlk)) _ _

theorem off_none (k : Name) (l : LId) (ust : UState)
    (hlk : alookup ust.map k = none) : off k l ust = ust := by
  rw [off]
  simp only [hlk]

theorem off_some (k : Name) (l : LId) (ust : UState) (sid : SetId)
    (hlk : alookup ust.map k = some sid) :
    off k l ust =
      if ((heapGet ust.heap sid).delete l).size = 0 then
        ⟨aremove ust.map k,
         aupdate ust.heap sid ((heapGet ust.heap sid).delete l), ust.nextId,
         ust.middlewares, ust.trace⟩
      else
        ⟨ust.map, aupdate ust.heap sid ((heapGet ust.heap sid).delete l),
         ust.nextId, ust.middlewares, ust.trace⟩ := by
  rw [off]
  simp only [hlk]

theorem off_wf (k : Name) (l : LId) (ust : UState) (hu : Wf ust) :
    Wf (off k l ust) := by
  cases hlk : alookup ust.map k with
  | none =>
    rw [off_none k l ust hlk]
    exact hu
  | some sid =>
    rw [off_some k l ust sid hlk]
    obtain ⟨hW1, hW2, hW3, hW4⟩ := hu
    have hkeys : ∀ p ∈ aupdate ust.heap sid ((heapGet ust.heap sid).delete l),
        p.1 < ust.nextId := by
      intro p hp
      have hf : p.1 ∈ (aupdate ust.heap sid
          ((heapGet ust.heap sid).delete l)).map Prod.fst :=
        List.mem_map_of_mem _ hp
      rw [aupdate_map_fst] at hf
      obtain ⟨q, hq, hq1⟩ := List.mem_map.mp hf
      rw [show p.1 = q.1 from hq1.symm]
      exact hW1 q hq
    split
    case isTrue hsz =>
      refine ⟨hkeys, ?_, ?_, ?_⟩
      · intro p hp
        rw [alookup_aupdate_isSome]
        exact hW2 p (mem_aremove.mp hp).1
      · exact hW3.sublist (List.Sublist.map Prod.snd (List.filter_sublist _))
      · intro p hp
        obtain ⟨hpm, hpk⟩ := mem_aremove.mp hp
        have hps : p.2 ≠ sid := by
          intro hcon
          have hpe : p = (k, sid) :=
            List.inj_on_of_nodup_map hW3 hpm (alookup_mem hlk) hcon
          exact hpk (by rw [hpe])
        rw [heapGet, alookup_aupdate_ne _ _ hps]
        exact hW4 p hpm
    case isFalse hsz =>
      refine ⟨hkeys, ?_, hW3, ?_⟩
      · intro p hp
        rw [alookup_aupdate_isSome]
        exact hW2 p hp
      · intro p hp
        by_cases hps : p.2 = sid
        · rw [hps, heapGet, alookup_aupdate_self _
            (hW2 (k, sid) (alookup_mem hlk))]
          exact Nat.pos_of_ne_zero hsz
        · rw [heapGet, alookup_aupdate_ne _ _ hps]
          exact hW4 p hp

theorem clear_wf (ust : UState) (hu : Wf ust) : Wf (clear ust) := by
  refine ⟨hu.1, ?_, ?_, ?_⟩ <;> simp [clear]

theorem envId_preserves : EnvPreserves envId := by
  refine ⟨fun _ _ _ h => h, fun _ _ _ _ h => h, fun m next st hn hw => ⟨hw, ?_⟩⟩
  intro L hL
  injection hL with h
  exact h ▸ hn

/-- C8: the registry well-formedness invariant — every event name present as
a key maps to a non-empty listener set (together with the bookkeeping that
makes it inductive) — holds of a fresh broker and is preserved by every
public operation: `on`, `once`, `off` (which deletes the whole entry when the
set empties), `clear`, and any completed `emit` whose listener, handler and
middleware behaviours are themselves realisable through the public API
(captured by `EnvPreserves`). -/
theorem C8_registry_invariant :
    (∀ ust, Wf ust → ∀ p ∈ ust.map, 0 < (heapGet ust.heap p.2).size) ∧
    (∀ mws, Wf (initU mws)) ∧
    (∀ maxL k l ust, Wf ust → Wf («on» maxL k l ust)) ∧
    (∀ maxL k w ust, Wf ust → Wf (once maxL k w ust)) ∧
    (∀ k l ust, Wf ust → Wf (off k l ust)) ∧
    (∀ ust, Wf ust → Wf (clear ust)) ∧
    (∀ (env : Env) (pol : ErrorPolicy) (k : Name) (d : Data) (fuel : Nat)
      (st st' : BState) (r : Option Err), EnvPreserves env → Wf st.u →
      emit env pol k d fuel st = some (st', r) → Wf st'.u) := by
  refine ⟨fun ust hu => hu.2.2.2, ?_, ?_, ?_, ?_, ?_, ?_⟩
  · intro mws
    simp [Wf, initU]
  · exact on_wf
  · exact fun maxL k w ust hu => on_wf maxL k w ust hu
  · exact off_wf
  · exact clear_wf
  · exact fun env pol k d fuel st st' r henv hu h =>
      emit_preserves_wf env pol k d fuel st st' r henv hu h

/-- Witness for C8: the invariant holds of the empty broker and after
concrete `on`, `once`, `off`, `clear` and `emit` runs. -/
theorem C8_registry_invariant_witness :
    Wf (initU []) ∧ Wf («on» 10 5 0 (initU [])) ∧
    Wf (once 10 5 4 (initU [])) ∧
    Wf (off 5 0 («on» 10 5 0 (initU []))) ∧
    Wf (clear («on» 10 5 0 (initU []))) ∧
    Wf (⟨[(5, 0)], [(0, ⟨[some 0, some 1]⟩)], 1, [],
        [.call 0 42, .call 1 42]⟩ : UState) := by
  refine ⟨C8_registry_invariant.2.1 [], ?_, ?_, ?_, ?_, ?_⟩
  · exact C8_registry_invariant.2.2.1 10 5 0 (initU []) (by decide)
  · exact C8_registry_invariant.2.2.2.1 10 5 4 (initU []) (by decide)
  · exact C8_registry_invariant.2.2.2.2.1 5 0 («on» 10 5 0 (initU [])) (by decide)
  · exact C8_registry_invariant.2.2.2.2.2.1 («on» 10 5 0 (initU [])) (by decide)
  · exact C8_registry_invariant.2.2.2.2.2.2 envId DEFAULT_ERROR_POLICY 5 42 10
      stW ⟨⟨[(5, 0)], [(0, ⟨[some 0, some 1]⟩)], 1, [],
        [.call 0 42, .call 1 42]⟩, [(0, 42), (1, 42)]⟩ none envId_preserves
      (by decide) rfl

end EventFlow
